import Mathlib

set_option autoImplicit false

/-!
Verification of the in-memory medical knowledge-graph store
(`src/medkg/graph/schema.py`).

The Python module is shallowly embedded:
* Python `dict` (insertion-ordered, unique string keys) is modelled as an
  association list `List (String × α)`: assignment `d[k] = v` replaces the
  entry in place when the key is present and appends otherwise, and
  `del d[k]` removes the entry.  This matches CPython's guaranteed
  insertion-order semantics.
* `dataclass` construction with `__post_init__` validation is modelled by a
  `make` function returning `Except Err _`; a raised exception is the
  `.error` case.
* Mutating `GraphStore` methods become functions
  `GraphStore → args → GraphStore × Except Err α`: the returned store is the
  state after the call, whether or not an exception escaped (Python
  exceptions leave all mutations performed before the raise in place).
* Python `float` confidence scores are modelled as rationals; the module
  only compares them against 0.0 and 1.0 and round-trips them.
* `str(int)` is Lean's `Nat.repr` (decimal digits).
-/

deriving instance DecidableEq for Except

namespace Medkg

/-! ## Python dictionaries as insertion-ordered association lists -/

/-- An insertion-ordered string-keyed map, the model of a Python `dict`. -/
abbrev Dict (α : Type) : Type := List (String × α)

namespace Dict

variable {α : Type}

/-- `d.get(k)` / `d[k]`: the value at key `k`, if present. -/
def find? (m : Dict α) (k : String) : Option α :=
  match m with
  | [] => none
  | (k', v) :: t => if k' = k then some v else find? t k

/-- `k in d`. -/
def contains (m : Dict α) (k : String) : Bool :=
  (find? m k).isSome

/-- `d[k] = v`: replace in place when the key exists, append otherwise. -/
def insert (m : Dict α) (k : String) (v : α) : Dict α :=
  match m with
  | [] => [(k, v)]
  | (k', v') :: t => if k' = k then (k, v) :: t else (k', v') :: insert t k v

/-- `del d[k]`: remove the (first) entry with key `k`. -/
def erase (m : Dict α) (k : String) : Dict α :=
  match m with
  | [] => []
  | (k', v') :: t => if k' = k then t else (k', v') :: erase t k

/-- `d.get(k, default)`. -/
def getD (m : Dict α) (k : String) (d : α) : α :=
  (find? m k).getD d

/-- `list(d.keys())`. -/
def keys (m : Dict α) : List String :=
  m.map Prod.fst

end Dict

/-- Python `list.remove(x)`: drop the first occurrence of `x`. -/
def removeFirst (l : List String) (x : String) : List String :=
  match l with
  | [] => []
  | y :: t => if y = x then t else y :: removeFirst t x

/-! ## Global constraints (`schema.py` lines 10-13) -/

def MAX_DEPTH : Nat := 2
def MAX_NODES : Nat := 30
def MIN_PUBMED_CITATIONS : Nat := 2

/-- The two exception classes of the module: `ValueError` raised by field
validation, and `ConstraintViolationError` raised when a global constraint
is violated. -/
inductive Err : Type where
  | valueError (msg : String)
  | constraintViolation (msg : String)
deriving DecidableEq

/-! ## Seed entities (`SEED_ENTITIES`, lines 23-39) -/

structure SeedData where
  label : String
  entity_type : String
  synonyms : List String
deriving DecidableEq

def SEED_ENTITIES : Dict SeedData :=
  [ ("intracranial_aneurysm_rupture",
     ⟨"Intracranial Aneurysm Rupture", "Disease",
      ["Brain Aneurysm Rupture", "Cerebral Aneurysm Rupture", "Intracranial Aneurysm"]⟩),
    ("inflammation",
     ⟨"Inflammation", "Biological Process",
      ["Inflammatory Response", "Inflammatory Process"]⟩),
    ("hemodynamics",
     ⟨"Hemodynamics", "Biomechanical",
      ["Blood Flow Dynamics", "Hemodynamic Forces", "Vascular Hemodynamics"]⟩) ]

/-! ## Value types: Node, Evidence, Edge (lines 43-187) -/

structure Node where
  node_id : String
  label : String
  entity_type : String
  synonyms : List String
  ontology_ref : Option String
  is_seed : Bool
deriving DecidableEq

/-- `Node(...)` dataclass construction including `__post_init__` validation
(lines 63-70). -/
def Node.make (node_id label entity_type : String) (synonyms : List String)
    (ontology_ref : Option String) (seed : Bool) : Except Err Node :=
  if node_id = "" then .error (.valueError "node_id cannot be empty")
  else if label = "" then .error (.valueError "label cannot be empty")
  else if entity_type = "" then .error (.valueError "entity_type cannot be empty")
  else .ok ⟨node_id, label, entity_type, synonyms, ontology_ref, seed⟩

structure Evidence where
  pubmed_id : String
  sentence : String
deriving DecidableEq

structure Edge where
  source_node_id : String
  target_node_id : String
  relationship_type : String
  evidence : List Evidence
  confidence : ℚ
deriving DecidableEq

/-- `Edge(...)` dataclass construction including `__post_init__` validation
(lines 143-161).  Note that the citation floor counts the raw length of the
evidence list (`len(self.evidence)`), and that it raises
`ConstraintViolationError`, not `ValueError`. -/
def Edge.make (source_node_id target_node_id relationship_type : String)
    (evidence : List Evidence) (confidence : ℚ) : Except Err Edge :=
  if source_node_id = "" then .error (.valueError "source_node_id cannot be empty")
  else if target_node_id = "" then .error (.valueError "target_node_id cannot be empty")
  else if relationship_type = "" then .error (.valueError "relationship_type cannot be empty")
  else if source_node_id = target_node_id then
    .error (.valueError "source and target nodes cannot be the same")
  else if ¬ (0 ≤ confidence ∧ confidence ≤ 1) then
    .error (.valueError "confidence must be between 0.0 and 1.0")
  else if evidence.length < MIN_PUBMED_CITATIONS then
    .error (.constraintViolation
      ("Edge must have at least " ++ Nat.repr MIN_PUBMED_CITATIONS ++
       " PubMed citations. Found " ++ Nat.repr evidence.length))
  else .ok ⟨source_node_id, target_node_id, relationship_type, evidence, confidence⟩

/-- `Edge.get_pubmed_ids` (lines 163-165): the set of pubmed ids of the
evidence entries, modelled as a duplicate-free list. -/
def Edge.get_pubmed_ids (e : Edge) : List String :=
  (e.evidence.map Evidence.pubmed_id).dedup

/-- The conditions under which `Node(...)` construction succeeds. -/
def NodeOK (n : Node) : Prop :=
  n.node_id ≠ "" ∧ n.label ≠ "" ∧ n.entity_type ≠ ""

/-- The conditions under which `Edge(...)` construction succeeds. -/
def EdgeOK (e : Edge) : Prop :=
  e.source_node_id ≠ "" ∧ e.target_node_id ≠ "" ∧ e.relationship_type ≠ "" ∧
  e.source_node_id ≠ e.target_node_id ∧ 0 ≤ e.confidence ∧ e.confidence ≤ 1 ∧
  MIN_PUBMED_CITATIONS ≤ e.evidence.length

/-! ## The graph store (lines 191-509) -/

structure GraphStore where
  nodes : Dict Node
  edges : Dict Edge
  node_edges : Dict (List String)
  edge_counter : Nat
deriving DecidableEq

/-- `_initialize_seed_entities` (lines 211-222), applied to a store. -/
def init_seed_entities (st : GraphStore) : GraphStore :=
  SEED_ENTITIES.foldl
    (fun st p =>
      { st with
        nodes := Dict.insert st.nodes p.1
          ⟨p.1, p.2.label, p.2.entity_type, p.2.synonyms, none, true⟩,
        node_edges := Dict.insert st.node_edges p.1 [] })
    st

/-- `GraphStore()` (lines 202-209). -/
def GraphStore.init : GraphStore :=
  init_seed_entities ⟨[], [], [], 0⟩

/-- `validate_with_umls` (lines 224-235). -/
def validate_with_umls (st : GraphStore) (node_id umls_cui : String) :
    GraphStore × Except Err Unit :=
  match Dict.find? st.nodes node_id with
  | none => (st, .error (.valueError ("Node " ++ node_id ++ " does not exist")))
  | some n =>
    ({ st with nodes := Dict.insert st.nodes node_id { n with ontology_ref := some umls_cui } },
     .ok ())

/-- The string produced by `_generate_edge_id` for counter value `c`:
`f"E_{c}_{source_id}_{target_id}_{rel_type}"` (line 240). -/
def edgeIdString (c : Nat) (source_id target_id rel_type : String) : String :=
  "E_" ++ Nat.repr c ++ "_" ++ source_id ++ "_" ++ target_id ++ "_" ++ rel_type

/-! ### BFS depth (lines 257-301)

The `while queue:` loop of `_bfs_depth` is modelled with explicit fuel.
Every queue element is popped exactly once, and elements are enqueued only
when a node is visited for the first time, at most `(adj n).length` of them;
each key's adjacency list is consulted at most once, so the total number of
enqueues is bounded by `1 + total_adj` and `2 + total_adj` loop iterations
always suffice to drain the queue, exactly reproducing the Python loop. -/

/-- One Python `while queue:` loop of `_bfs_depth`, parameterised by the
adjacency lookup `self.node_edges.get(n, [])` and the edge lookup
`self.edges.get(eid)`. -/
def bfs_loop (adj : String → List String) (lookup : String → Option Edge) :
    Nat → List (String × Nat) → List String → Nat → Nat
  | 0, _, _, md => md
  | _ + 1, [], _, md => md
  | fuel + 1, (n, d) :: queue, visited, md =>
    if n ∈ visited then bfs_loop adj lookup fuel queue visited md
    else
      let appended := (adj n).filterMap (fun eid =>
        match lookup eid with
        | some e =>
          if e.source_node_id = n ∧ ¬ e.target_node_id ∈ visited then
            some (e.target_node_id, d + 1)
          else none
        | none => none)
      bfs_loop adj lookup fuel (queue ++ appended) (n :: visited) (max md d)

/-- The sum of the lengths of all adjacency lists, used as the fuel bound. -/
def total_adj (st : GraphStore) : Nat :=
  (st.node_edges.map (fun p => p.2.length)).sum

/-- `_bfs_depth` (lines 276-301). -/
def bfs_depth (st : GraphStore) (start_node_id : String) : Nat :=
  if Dict.contains st.nodes start_node_id then
    bfs_loop (fun n => Dict.getD st.node_edges n []) (fun eid => Dict.find? st.edges eid)
      (2 + total_adj st) [(start_node_id, 0)] [] 0
  else 0

/-- `_calculate_max_depth` (lines 257-274). -/
def calculate_max_depth (st : GraphStore) : Nat :=
  if st.nodes.isEmpty then 0
  else
    let seed_nodes := (st.nodes.filter (fun p => p.2.is_seed)).map Prod.fst
    let starts := if seed_nodes.isEmpty then (st.nodes.map Prod.fst).take 1 else seed_nodes
    starts.foldl (fun md s => max md (bfs_depth st s)) 0

/-- `_validate_constraints` (lines 242-255). -/
def validate_constraints (st : GraphStore) : Except Err Unit :=
  if MAX_NODES < st.nodes.length then
    .error (.constraintViolation
      ("Graph exceeds maximum nodes constraint: " ++ Nat.repr st.nodes.length ++
       " > " ++ Nat.repr MAX_NODES))
  else if MAX_DEPTH < calculate_max_depth st then
    .error (.constraintViolation
      ("Graph exceeds maximum depth constraint: " ++ Nat.repr (calculate_max_depth st) ++
       " > " ++ Nat.repr MAX_DEPTH))
  else .ok ()

/-- `add_node` (lines 303-318). -/
def add_node (st : GraphStore) (node : Node) : GraphStore × Except Err Unit :=
  if MAX_NODES ≤ st.nodes.length ∧ ¬ Dict.contains st.nodes node.node_id then
    (st, .error (.constraintViolation
      ("Cannot add node: would exceed maximum nodes constraint (" ++
       Nat.repr MAX_NODES ++ ")")))
  else
    ({ st with
       nodes := Dict.insert st.nodes node.node_id node,
       node_edges :=
         if Dict.contains st.node_edges node.node_id then st.node_edges
         else Dict.insert st.node_edges node.node_id [] },
     .ok ())

/-- Steps 2-3 of `add_edge` (lines 333-351): counter bump, id assignment,
edge-map insertion, and both adjacency appends, before validation. -/
def tentative_insert (st : GraphStore) (edge : Edge) : GraphStore :=
  let c := st.edge_counter + 1
  let edge_id := edgeIdString c edge.source_node_id edge.target_node_id edge.relationship_type
  let edges2 := Dict.insert st.edges edge_id edge
  let ne3 :=
    if Dict.contains st.node_edges edge.source_node_id then st.node_edges
    else Dict.insert st.node_edges edge.source_node_id []
  let ne4 := Dict.insert ne3 edge.source_node_id
    (Dict.getD ne3 edge.source_node_id [] ++ [edge_id])
  let ne5 :=
    if Dict.contains ne4 edge.target_node_id then ne4
    else Dict.insert ne4 edge.target_node_id []
  let ne6 := Dict.insert ne5 edge.target_node_id
    (Dict.getD ne5 edge.target_node_id [] ++ [edge_id])
  { nodes := st.nodes, edges := edges2, node_edges := ne6, edge_counter := c }

/-- The rollback block of `add_edge` (lines 356-362): delete the edge-map
entry and remove the id from both adjacency lists. -/
def rollback_edge (st3 : GraphStore) (edge : Edge) (edge_id : String) : GraphStore :=
  let edgesR := Dict.erase st3.edges edge_id
  let neA :=
    if edge_id ∈ Dict.getD st3.node_edges edge.source_node_id [] then
      Dict.insert st3.node_edges edge.source_node_id
        (removeFirst (Dict.getD st3.node_edges edge.source_node_id []) edge_id)
    else st3.node_edges
  let neB :=
    if edge_id ∈ Dict.getD neA edge.target_node_id [] then
      Dict.insert neA edge.target_node_id
        (removeFirst (Dict.getD neA edge.target_node_id []) edge_id)
    else neA
  { nodes := st3.nodes, edges := edgesR, node_edges := neB, edge_counter := st3.edge_counter }

/-- `add_edge` (lines 320-365): endpoint checks, tentative insertion,
validation, and rollback-on-violation. -/
def add_edge (st : GraphStore) (edge : Edge) : GraphStore × Except Err String :=
  if ¬ Dict.contains st.nodes edge.source_node_id then
    (st, .error (.valueError ("Source node " ++ edge.source_node_id ++ " does not exist")))
  else if ¬ Dict.contains st.nodes edge.target_node_id then
    (st, .error (.valueError ("Target node " ++ edge.target_node_id ++ " does not exist")))
  else
    match validate_constraints (tentative_insert st edge) with
    | .ok _ => (tentative_insert st edge,
        .ok (edgeIdString (st.edge_counter + 1)
          edge.source_node_id edge.target_node_id edge.relationship_type))
    | .error e => (rollback_edge (tentative_insert st edge) edge
        (edgeIdString (st.edge_counter + 1)
          edge.source_node_id edge.target_node_id edge.relationship_type), .error e)

/-- `get_node_edges` (lines 379-403). -/
def get_node_edges (st : GraphStore) (node_id direction : String) : List Edge :=
  (Dict.getD st.node_edges node_id []).filterMap (fun eid =>
    match Dict.find? st.edges eid with
    | none => none
    | some e =>
      if direction = "outgoing" ∧ e.source_node_id = node_id then some e
      else if direction = "incoming" ∧ e.target_node_id = node_id then some e
      else if direction = "both" then some e
      else none)

/-- `get_neighbors` (lines 405-430).  The Python `neighbor_ids` set is
modelled as a duplicate-free list in insertion order (the claims about it
are order-insensitive). -/
def get_neighbors (st : GraphStore) (node_id direction : String) : List Node :=
  let edges := get_node_edges st node_id direction
  let neighbor_ids := edges.foldl
    (fun acc e =>
      let nid :=
        if direction = "outgoing" then e.target_node_id
        else if direction = "incoming" then e.source_node_id
        else if e.source_node_id = node_id then e.target_node_id
        else e.source_node_id
      if nid ∈ acc then acc else acc ++ [nid])
    []
  neighbor_ids.filterMap (fun nid => Dict.find? st.nodes nid)

/-- The record returned by `get_statistics` (lines 432-451). -/
structure Statistics where
  num_nodes : Nat
  num_seed_nodes : Nat
  num_edges : Nat
  max_depth : Nat
  max_nodes_constraint : Nat
  max_depth_constraint : Nat
  min_pubmed_citations_constraint : Nat
  entity_types : Dict Nat
  relationship_types : Dict Nat
deriving DecidableEq

/-- `get_statistics` (lines 432-451).  The histogram dict comprehensions
keep first-occurrence key order, as Python dict comprehensions do. -/
def get_statistics (st : GraphStore) : Statistics :=
  { num_nodes := st.nodes.length
    num_seed_nodes := (st.nodes.filter (fun p => p.2.is_seed)).length
    num_edges := st.edges.length
    max_depth := calculate_max_depth st
    max_nodes_constraint := MAX_NODES
    max_depth_constraint := MAX_DEPTH
    min_pubmed_citations_constraint := MIN_PUBMED_CITATIONS
    entity_types := st.nodes.foldl
      (fun acc p => Dict.insert acc p.2.entity_type
        ((st.nodes.filter (fun q => q.2.entity_type = p.2.entity_type)).length))
      []
    relationship_types := st.edges.foldl
      (fun acc p => Dict.insert acc p.2.relationship_type
        ((st.edges.filter (fun q => q.2.relationship_type = p.2.relationship_type)).length))
      [] }

/-! ### Serialization (lines 453-496) -/

/-- The field content of an edge record in a snapshot (`Edge.to_dict`
output / `Edge.from_dict` input, all fields present). -/
structure EdgeData where
  source_node_id : String
  target_node_id : String
  relationship_type : String
  evidence : List Evidence
  confidence : ℚ
deriving DecidableEq

def Edge.to_data (e : Edge) : EdgeData :=
  ⟨e.source_node_id, e.target_node_id, e.relationship_type, e.evidence, e.confidence⟩

/-- A snapshot dictionary as produced by `to_dict` and consumed by
`from_dict`.  Node records carry the same fields as `Node` (all keys
present, as `Node.to_dict` emits them); they need not satisfy the `Node`
validation, which is re-run on import. -/
structure Snapshot where
  seed_entities : Dict SeedData
  nodes : Dict Node
  edges : Dict EdgeData
  statistics : Statistics
deriving DecidableEq

/-- `to_dict` (lines 453-460). -/
def to_dict (st : GraphStore) : Snapshot :=
  { seed_entities := SEED_ENTITIES
    nodes := st.nodes
    edges := st.edges.map (fun p => (p.1, Edge.to_data p.2))
    statistics := get_statistics st }

/-- The node-replay loop of `from_dict` (lines 473-484).  Non-seed records
are re-validated by `Node.from_dict` and inserted through `add_node`
(an exception propagates, leaving the store as mutated so far); records
flagged as seeds only update `ontology_ref` and `synonyms` of the
already-initialized seed node (both keys are present in a snapshot record). -/
def from_dict_nodes : GraphStore → List (String × Node) → GraphStore × Except Err Unit
  | st, [] => (st, .ok ())
  | st, (nid, nd) :: rest =>
    if nd.is_seed = false then
      match Node.make nd.node_id nd.label nd.entity_type nd.synonyms nd.ontology_ref nd.is_seed with
      | .error e => (st, .error e)
      | .ok node =>
        match add_node st node with
        | (st', .ok _) => from_dict_nodes st' rest
        | (st', .error e) => (st', .error e)
    else
      match Dict.find? st.nodes nid with
      | some n =>
        let upd : Node := { n with ontology_ref := nd.ontology_ref, synonyms := nd.synonyms }
        from_dict_nodes { st with nodes := Dict.insert st.nodes nid upd } rest
      | none => from_dict_nodes st rest

/-- The edge-replay loop of `from_dict` (lines 486-496): each record is
re-validated by `Edge.from_dict`, stored under its snapshot edge id, and
appended to both endpoints' adjacency lists. -/
def from_dict_edges : GraphStore → List (String × EdgeData) → GraphStore × Except Err Unit
  | st, [] => (st, .ok ())
  | st, (eid, ed) :: rest =>
    match Edge.make ed.source_node_id ed.target_node_id ed.relationship_type
        ed.evidence ed.confidence with
    | .error e => (st, .error e)
    | .ok edge =>
      let ne1 :=
        if Dict.contains st.node_edges edge.source_node_id then st.node_edges
        else Dict.insert st.node_edges edge.source_node_id []
      let ne2 :=
        if Dict.contains ne1 edge.target_node_id then ne1
        else Dict.insert ne1 edge.target_node_id []
      let ne3 := Dict.insert ne2 edge.source_node_id
        (Dict.getD ne2 edge.source_node_id [] ++ [eid])
      let ne4 := Dict.insert ne3 edge.target_node_id
        (Dict.getD ne3 edge.target_node_id [] ++ [eid])
      from_dict_edges
        { st with edges := Dict.insert st.edges eid edge, node_edges := ne4 }
        rest

/-- `from_dict` (lines 462-496): clear all state, reset the edge counter,
re-initialize the seed entities, then replay nodes and edges.  The receiver
store is irrelevant after the clear. -/
def from_dict (_st : GraphStore) (data : Snapshot) : GraphStore × Except Err Unit :=
  let st0 := init_seed_entities ⟨[], [], [], 0⟩
  match from_dict_nodes st0 data.nodes with
  | (st1, .error e) => (st1, .error e)
  | (st1, .ok _) => from_dict_edges st1 data.edges

/-! ## Operation-sequence relations

A step relates a store to the store left behind by one public mutating
call.  `Step` covers every call (successful or raising, including
`from_dict`); `StepNI` excludes `from_dict`; `StepOps` restricts to
successful non-import calls; `StepCore` further restricts `add_node` to
nodes whose `is_seed` flag is false (the normal usage: the spec stipulates
that `is_seed` is set only at initialization). -/

inductive Step : GraphStore → GraphStore → Prop where
  | addNode (st : GraphStore) (n : Node) (h : NodeOK n) : Step st (add_node st n).1
  | addEdge (st : GraphStore) (e : Edge) (h : EdgeOK e) : Step st (add_edge st e).1
  | validateUmls (st : GraphStore) (nid cui : String) :
      Step st (validate_with_umls st nid cui).1
  | fromDict (st : GraphStore) (d : Snapshot) : Step st (from_dict st d).1

inductive StepNI : GraphStore → GraphStore → Prop where
  | addNode (st : GraphStore) (n : Node) (h : NodeOK n) : StepNI st (add_node st n).1
  | addEdge (st : GraphStore) (e : Edge) (h : EdgeOK e) : StepNI st (add_edge st e).1
  | validateUmls (st : GraphStore) (nid cui : String) :
      StepNI st (validate_with_umls st nid cui).1

inductive StepOps : GraphStore → GraphStore → Prop where
  | addNode (st : GraphStore) (n : Node) (h : NodeOK n)
      (hok : (add_node st n).2 = .ok ()) : StepOps st (add_node st n).1
  | addEdge (st : GraphStore) (e : Edge) (h : EdgeOK e) (eid : String)
      (hok : (add_edge st e).2 = .ok eid) : StepOps st (add_edge st e).1
  | validateUmls (st : GraphStore) (nid cui : String)
      (hok : (validate_with_umls st nid cui).2 = .ok ()) :
      StepOps st (validate_with_umls st nid cui).1

inductive StepCore : GraphStore → GraphStore → Prop where
  | addNode (st : GraphStore) (n : Node) (h : NodeOK n) (hseed : n.is_seed = false)
      (hok : (add_node st n).2 = .ok ()) : StepCore st (add_node st n).1
  | addEdge (st : GraphStore) (e : Edge) (h : EdgeOK e) (eid : String)
      (hok : (add_edge st e).2 = .ok eid) : StepCore st (add_edge st e).1
  | validateUmls (st : GraphStore) (nid cui : String)
      (hok : (validate_with_umls st nid cui).2 = .ok ()) :
      StepCore st (validate_with_umls st nid cui).1

inductive Reachable : GraphStore → Prop where
  | init : Reachable GraphStore.init
  | step {st st' : GraphStore} : Reachable st → Step st st' → Reachable st'

inductive ReachableNI : GraphStore → Prop where
  | init : ReachableNI GraphStore.init
  | step {st st' : GraphStore} : ReachableNI st → StepNI st st' → ReachableNI st'

inductive ReachableOps : GraphStore → Prop where
  | init : ReachableOps GraphStore.init
  | step {st st' : GraphStore} : ReachableOps st → StepOps st st' → ReachableOps st'

inductive ReachableCore : GraphStore → Prop where
  | init : ReachableCore GraphStore.init
  | step {st st' : GraphStore} : ReachableCore st → StepCore st st' → ReachableCore st'

/-! ## Invariant bundles -/

/-- The edge ids incident to `k`, in edge-map order: the canonical content
of `k`'s adjacency list. -/
def incident (k : String) (edges : Dict Edge) : List String :=
  edges.filterMap (fun p =>
    if p.2.source_node_id = k ∨ p.2.target_node_id = k then some p.1 else none)

/-- Structural well-formedness, maintained by every non-import call
(successful or raising). -/
structure WF (st : GraphStore) : Prop where
  nodes_nodup : (Dict.keys st.nodes).Nodup
  edges_nodup : (Dict.keys st.edges).Nodup
  ne_keys : Dict.keys st.node_edges = Dict.keys st.nodes
  ne_canon : st.node_edges =
    (Dict.keys st.node_edges).map (fun k => (k, incident k st.edges))
  key_coh : ∀ p ∈ st.nodes, p.2.node_id = p.1
  nodes_ok : ∀ p ∈ st.nodes, NodeOK p.2
  edges_ok : ∀ p ∈ st.edges, EdgeOK p.2
  endpoints : ∀ p ∈ st.edges,
    Dict.contains st.nodes p.2.source_node_id = true ∧
    Dict.contains st.nodes p.2.target_node_id = true
  counter : ∀ eid ∈ Dict.keys st.edges,
    ∃ c s t r, 1 ≤ c ∧ c ≤ st.edge_counter ∧ eid = edgeIdString c s t r
  nodes_le : st.nodes.length ≤ MAX_NODES

/-- Seed-node structure maintained by `StepCore` sequences: the node map
starts with the three seed keys, every node appended later is non-seed, and
every seed-flagged node still carries its initialization label and entity
type. -/
structure CoreWF (st : GraphStore) : Prop where
  seeds_layout : ∃ v1 v2 v3 tail,
    st.nodes = ("intracranial_aneurysm_rupture", v1) :: ("inflammation", v2) ::
      ("hemodynamics", v3) :: tail ∧ ∀ p ∈ tail, p.2.is_seed = false
  seeds_shape : ∀ p ∈ st.nodes, p.2.is_seed = true →
    ∃ q ∈ SEED_ENTITIES, p.1 = q.1 ∧ p.2.label = q.2.label ∧
      p.2.entity_type = q.2.entity_type
  depth_ok : ∀ p ∈ st.nodes, p.2.is_seed = true → bfs_depth st p.1 ≤ MAX_DEPTH

/-- Weaker invariant that survives `from_dict` (including a `from_dict`
that raises partway): node keys stay unique, the node count stays within
`MAX_NODES`, every seed id stays present, and node-map values record their
own key as `node_id`. -/
structure BaseWF (st : GraphStore) : Prop where
  nodes_nodup : (Dict.keys st.nodes).Nodup
  nodes_le : st.nodes.length ≤ MAX_NODES
  seeds_present : ∀ q ∈ SEED_ENTITIES, Dict.contains st.nodes q.1 = true
  key_coh : ∀ p ∈ st.nodes, p.2.node_id = p.1

/-! ## Concrete scenario data used by counterexamples and witnesses -/

def nodeA : Node := ⟨"a", "A", "T", [], none, false⟩
def nodeB : Node := ⟨"b", "B", "T", [], none, false⟩
def nodeC : Node := ⟨"c", "C", "T", [], none, false⟩
def nodeD : Node := ⟨"d", "D", "T", [], none, false⟩

def twoEvidence : List Evidence := [⟨"p1", "s1"⟩, ⟨"p2", "s2"⟩]

/-- A constructible edge between the given node ids. -/
def mkEdgeR (s t : String) : Edge := ⟨s, t, "R", twoEvidence, 1⟩

/-- Seeds plus `a`, `b`, `c` and edges `inflammation → a → b` (depth 2). -/
def chainStore : GraphStore :=
  (add_edge (add_edge (add_node (add_node (add_node GraphStore.init
    nodeA).1 nodeB).1 nodeC).1 (mkEdgeR "inflammation" "a")).1 (mkEdgeR "a" "b")).1

/-- `chainStore` after the rejected attempt to add `b → c` (depth 3). -/
def chainStoreAfter : GraphStore := (add_edge chainStore (mkEdgeR "b" "c")).1

/-- Seeds plus disconnected chain `a → b → c → d` among non-seed nodes. -/
def detachedChainStore : GraphStore :=
  (add_edge (add_edge (add_edge (add_node (add_node (add_node (add_node
    GraphStore.init nodeA).1 nodeB).1 nodeC).1 nodeD).1
    (mkEdgeR "a" "b")).1 (mkEdgeR "b" "c")).1 (mkEdgeR "c" "d")).1

/-- `nodeA` re-submitted with the seed flag raised. -/
def nodeASeed : Node := ⟨"a", "A", "T", [], none, true⟩

/-- `detachedChainStore` after `add_node` promotes `a` to a seed. -/
def promotedStore : GraphStore := (add_node detachedChainStore nodeASeed).1

/-- A store with one edge between two seeds. -/
def oneEdgeStore : GraphStore :=
  (add_edge GraphStore.init (mkEdgeR "inflammation" "hemodynamics")).1

/-- `oneEdgeStore` after a snapshot round-trip (the edge counter is reset). -/
def reimportedStore : GraphStore := (from_dict oneEdgeStore (to_dict oneEdgeStore)).1

/-- A node with a non-seed id but the seed flag raised. -/
def nodeXSeed : Node := ⟨"x", "X", "T", [], none, true⟩

/-- The store holding `nodeXSeed`; its global invariants hold. -/
def xSeedStore : GraphStore := (add_node GraphStore.init nodeXSeed).1

/-- A non-seed node submitted under the seed id `inflammation`. -/
def fakeInflammation : Node := ⟨"inflammation", "Fake", "T", [], none, false⟩

/-- A snapshot with 28 distinct non-seed nodes: together with the 3 seeds
it exceeds `MAX_NODES = 30`. -/
def oversizedSnapshot : Snapshot :=
  ⟨SEED_ENTITIES,
   (List.range 28).map (fun i =>
     ("n" ++ Nat.repr i, ⟨"n" ++ Nat.repr i, "L", "T", [], none, false⟩)),
   [],
   get_statistics GraphStore.init⟩

/-- A snapshot whose edges form a 3-hop chain from the seed `inflammation`:
it violates the max-depth invariant. -/
def deepSnapshot : Snapshot :=
  ⟨SEED_ENTITIES,
   [("a", nodeA), ("b", nodeB), ("c", nodeC)],
   [("E_1_inflammation_a_R", Edge.to_data (mkEdgeR "inflammation" "a")),
    ("E_2_a_b_R", Edge.to_data (mkEdgeR "a" "b")),
    ("E_3_b_c_R", Edge.to_data (mkEdgeR "b" "c"))],
   get_statistics GraphStore.init⟩

/-- The set of non-seed node ids a snapshot inserts through `add_node`,
together with the seed ids: a bound on the node count after import. -/
def snapshotNodeIds (d : Snapshot) : List String :=
  (Dict.keys SEED_ENTITIES ++
    (d.nodes.filter (fun p => p.2.is_seed = false)).map (fun p => p.2.node_id)).dedup

/-- The numeric value of a decimal digit string; inverts `Nat.repr` and so
witnesses that distinct counters yield distinct edge-id strings. -/
def valDigits (l : List Char) : Nat :=
  l.foldl (fun a c => 10 * a + (c.toNat - 48)) 0

/-- The conditions under which `Edge.from_dict` succeeds on a snapshot
edge record. -/
def EdgeDataOK (ed : EdgeData) : Prop :=
  ed.source_node_id ≠ "" ∧ ed.target_node_id ≠ "" ∧ ed.relationship_type ≠ "" ∧
  ed.source_node_id ≠ ed.target_node_id ∧ 0 ≤ ed.confidence ∧ ed.confidence ≤ 1 ∧
  MIN_PUBMED_CITATIONS ≤ ed.evidence.length

instance (n : Node) : Decidable (NodeOK n) := by
  unfold NodeOK
  infer_instance

instance (e : Edge) : Decidable (EdgeOK e) := by
  unfold EdgeOK
  infer_instance

instance (ed : EdgeData) : Decidable (EdgeDataOK ed) := by
  unfold EdgeDataOK
  infer_instance

/-! ## Dictionary lemmas -/

namespace Dict

variable {α : Type}

theorem keys_nil : keys ([] : Dict α) = [] := rfl

theorem keys_cons (p : String × α) (t : Dict α) : keys (p :: t) = p.1 :: keys t := rfl

theorem find?_eq_none_iff {m : Dict α} {k : String} :
    find? m k = none ↔ k ∉ keys m := by
  induction m with
  | nil => simp [find?, keys_nil]
  | cons p t ih =>
    obtain ⟨k', v⟩ := p
    by_cases h : k' = k
    · subst h
      simp [find?, keys_cons]
    · rw [find?, if_neg h, keys_cons, List.mem_cons, not_or, ih]
      exact ⟨fun hn => ⟨fun he => h he.symm, hn⟩, fun hn => hn.2⟩

theorem mem_of_find? {m : Dict α} {k : String} {v : α}
    (h : find? m k = some v) : (k, v) ∈ m := by
  induction m with
  | nil => simp [find?] at h
  | cons p t ih =>
    obtain ⟨k', v'⟩ := p
    by_cases hk : k' = k
    · subst hk
      rw [find?, if_pos rfl] at h
      cases h
      exact List.mem_cons_self _ _
    · rw [find?, if_neg hk] at h
      exact List.mem_cons_of_mem _ (ih h)

theorem mem_keys_of_find? {m : Dict α} {k : String} {v : α}
    (h : find? m k = some v) : k ∈ keys m :=
  List.mem_map_of_mem Prod.fst (mem_of_find? h)

theorem find?_of_mem_nodup {m : Dict α} {k : String} {v : α}
    (hnd : (keys m).Nodup) (h : (k, v) ∈ m) : find? m k = some v := by
  induction m with
  | nil => simp at h
  | cons p t ih =>
    obtain ⟨k', v'⟩ := p
    rw [keys_cons, List.nodup_cons] at hnd
    rcases List.mem_cons.mp h with h1 | h1
    · have h2 : k = k' := congrArg Prod.fst h1
      have h3 : v = v' := congrArg Prod.snd h1
      subst h2; subst h3
      rw [find?, if_pos rfl]
    · have hkmem : k ∈ keys t := List.mem_map_of_mem Prod.fst h1
      have hk : k' ≠ k := fun he => hnd.1 (he ▸ hkmem)
      rw [find?, if_neg hk]
      exact ih hnd.2 h1

theorem find?_insert_self (m : Dict α) (k : String) (v : α) :
    find? (insert m k v) k = some v := by
  induction m with
  | nil => simp [insert, find?]
  | cons p t ih =>
    obtain ⟨k', v'⟩ := p
    by_cases h : k' = k <;> simp [insert, find?, h, ih]

theorem find?_insert_ne (m : Dict α) (k : String) (v : α) {k' : String} (h : k ≠ k') :
    find? (insert m k v) k' = find? m k' := by
  induction m with
  | nil => simp [insert, find?, h]
  | cons p t ih =>
    obtain ⟨ka, va⟩ := p
    by_cases hk : ka = k
    · subst hk
      simp [insert, find?, h]
    · simp only [insert, if_neg hk]
      by_cases hk' : ka = k'
      · subst hk'
        rw [find?, if_pos rfl, find?, if_pos rfl]
      · rw [find?, if_neg hk', find?, if_neg hk']
        exact ih

theorem contains_iff_mem_keys {m : Dict α} {k : String} :
    contains m k = true ↔ k ∈ keys m := by
  unfold contains
  rcases hf : find? m k with _ | v
  · simp only [Option.isSome_none, Bool.false_eq_true, false_iff]
    exact find?_eq_none_iff.mp hf
  · simp only [Option.isSome_some, true_iff]
    exact mem_keys_of_find? hf

theorem contains_eq_false_iff {m : Dict α} {k : String} :
    contains m k = false ↔ k ∉ keys m := by
  rw [← contains_iff_mem_keys]
  simp

theorem keys_insert_of_contains {m : Dict α} {k : String}
    (h : contains m k = true) (v : α) : keys (insert m k v) = keys m := by
  induction m with
  | nil => simp [contains, find?] at h
  | cons p t ih =>
    obtain ⟨k', v'⟩ := p
    by_cases hk : k' = k
    · subst hk
      simp [insert, keys_cons]
    · have h' : contains t k = true := by
        unfold contains at h ⊢
        rw [find?, if_neg hk] at h
        exact h
      simp only [insert, if_neg hk, keys_cons]
      rw [ih h']

theorem keys_insert_of_not_contains {m : Dict α} {k : String}
    (h : contains m k = false) (v : α) : keys (insert m k v) = keys m ++ [k] := by
  induction m with
  | nil => simp [insert, keys_cons, keys_nil]
  | cons p t ih =>
    obtain ⟨k', v'⟩ := p
    by_cases hk : k' = k
    · subst hk
      unfold contains at h
      rw [find?, if_pos rfl] at h
      simp at h
    · have h' : contains t k = false := by
        unfold contains at h ⊢
        rw [find?, if_neg hk] at h
        exact h
      simp only [insert, if_neg hk, keys_cons]
      rw [ih h']
      rfl

theorem length_insert_of_contains {m : Dict α} {k : String}
    (h : contains m k = true) (v : α) : (insert m k v).length = m.length := by
  have h2 : (keys (insert m k v)).length = (keys m).length := by
    rw [keys_insert_of_contains h v]
  simpa [keys, List.length_map] using h2

theorem length_insert_of_not_contains {m : Dict α} {k : String}
    (h : contains m k = false) (v : α) : (insert m k v).length = m.length + 1 := by
  have h2 : (keys (insert m k v)).length = (keys m ++ [k]).length := by
    rw [keys_insert_of_not_contains h v]
  simpa [keys, List.length_map] using h2

theorem insert_insert_same (m : Dict α) (k : String) (v w : α) :
    insert (insert m k v) k w = insert m k w := by
  induction m with
  | nil => simp [insert]
  | cons p t ih =>
    obtain ⟨k', v'⟩ := p
    by_cases hk : k' = k <;> simp [insert, hk, ih]

theorem insert_self_of_find? {m : Dict α} {k : String} {v : α}
    (h : find? m k = some v) : insert m k v = m := by
  induction m with
  | nil => simp [find?] at h
  | cons p t ih =>
    obtain ⟨k', v'⟩ := p
    by_cases hk : k' = k
    · subst hk
      rw [find?, if_pos rfl] at h
      cases h
      simp [insert]
    · rw [find?, if_neg hk] at h
      simp [insert, hk, ih h]

theorem erase_insert_of_find?_none {m : Dict α} {k : String}
    (h : find? m k = none) (v : α) : erase (insert m k v) k = m := by
  induction m with
  | nil => simp [insert, erase]
  | cons p t ih =>
    obtain ⟨k', v'⟩ := p
    by_cases hk : k' = k
    · rw [find?, if_pos hk] at h
      cases h
    · rw [find?, if_neg hk] at h
      simp [insert, erase, hk, ih h]

theorem mem_insert {m : Dict α} {k : String} {v : α} {p : String × α}
    (h : p ∈ insert m k v) : p ∈ m ∨ p = (k, v) := by
  induction m with
  | nil =>
    simp [insert] at h
    simp [h]
  | cons q t ih =>
    obtain ⟨k', v'⟩ := q
    by_cases hk : k' = k
    · simp only [insert, if_pos hk, List.mem_cons] at h
      rcases h with h | h
      · right; exact h
      · left; exact List.mem_cons_of_mem _ h
    · simp only [insert, if_neg hk, List.mem_cons] at h
      rcases h with h | h
      · left; exact h ▸ List.mem_cons_self _ _
      · rcases ih h with h1 | h1
        · left; exact List.mem_cons_of_mem _ h1
        · right; exact h1

theorem nodup_keys_insert {m : Dict α} (h : (keys m).Nodup) (k : String) (v : α) :
    (keys (insert m k v)).Nodup := by
  rcases hc : contains m k with _ | _
  · rw [keys_insert_of_not_contains hc v]
    have hk : k ∉ keys m := contains_eq_false_iff.mp hc
    simp [List.nodup_append, h, hk]
  · rw [keys_insert_of_contains hc v]
    exact h

theorem getD_insert_self (m : Dict α) (k : String) (v d : α) :
    getD (insert m k v) k d = v := by
  simp [getD, find?_insert_self]

theorem getD_insert_ne (m : Dict α) (k : String) (v : α) {k' : String}
    (h : k ≠ k') (d : α) : getD (insert m k v) k' d = getD m k' d := by
  simp [getD, find?_insert_ne m k v h]

theorem contains_insert_self (m : Dict α) (k : String) (v : α) :
    contains (insert m k v) k = true := by
  simp [contains, find?_insert_self]

theorem contains_insert_ne (m : Dict α) (k : String) (v : α) {k' : String} (h : k ≠ k') :
    contains (insert m k v) k' = contains m k' := by
  simp [contains, find?_insert_ne m k v h]

/-- Undoing the two adjacency-list updates of a failed `add_edge`: writing
back the saved values restores the dictionary. -/
theorem insert_restore {m : Dict α} {s t : String} (hst : s ≠ t) {a b : α} (A B : α)
    (hs : find? m s = some a) (ht : find? m t = some b) :
    insert (insert (insert (insert m s A) t B) s a) t b = m := by
  induction m with
  | nil => simp [find?] at hs
  | cons p tl ih =>
    obtain ⟨k, v⟩ := p
    by_cases hks : k = s
    · subst hks
      rw [find?, if_pos rfl] at hs
      cases hs
      have hkt : k ≠ t := hst
      rw [find?, if_neg hkt] at ht
      simp only [insert, if_pos rfl, if_true, if_neg hkt, if_neg (Ne.symm hst)]
      rw [show Dict.insert (Dict.insert tl t B) t b = Dict.insert tl t b from
        insert_insert_same ..]
      rw [insert_self_of_find? ht]
    · by_cases hkt : k = t
      · subst hkt
        rw [find?, if_pos rfl] at ht
        cases ht
        rw [find?, if_neg hks] at hs
        simp only [insert, if_neg hks, if_pos rfl, if_true, if_neg (Ne.symm hks)]
        rw [show Dict.insert (Dict.insert tl s A) s a = Dict.insert tl s a from
          insert_insert_same ..]
        rw [insert_self_of_find? hs]
      · rw [find?, if_neg hks] at hs
        rw [find?, if_neg hkt] at ht
        simp only [insert, if_neg hks, if_neg hkt]
        rw [ih hs ht]

end Dict

/-- Removing the just-appended element restores the list. -/
theorem removeFirst_append_self {l : List String} {x : String} (h : x ∉ l) :
    removeFirst (l ++ [x]) x = l := by
  induction l with
  | nil => simp [removeFirst]
  | cons y t ih =>
    simp only [List.mem_cons, not_or] at h
    have hyx : y ≠ x := fun he => h.1 he.symm
    simp only [List.cons_append, removeFirst, if_neg hyx]
    exact congrArg (List.cons y) (ih h.2)

/-! ## Decimal representation lemmas: distinct counters give distinct ids -/

theorem toDigitsCore_acc : ∀ (f n : Nat) (ds : List Char),
    Nat.toDigitsCore 10 f n ds = Nat.toDigitsCore 10 f n [] ++ ds := by
  intro f
  induction f with
  | zero => intro n ds; simp [Nat.toDigitsCore]
  | succ f ih =>
    intro n ds
    simp only [Nat.toDigitsCore]
    by_cases h : n / 10 = 0
    · simp [h]
    · simp only [if_neg h]
      rw [ih (n / 10) (Nat.digitChar (n % 10) :: ds), ih (n / 10) [Nat.digitChar (n % 10)]]
      simp

theorem digitChar_ne_underscore {k : Nat} (h : k < 10) : Nat.digitChar k ≠ '_' := by
  interval_cases k <;> decide

theorem digitChar_toNat {k : Nat} (h : k < 10) : (Nat.digitChar k).toNat = 48 + k := by
  interval_cases k <;> decide

theorem toDigitsCore_chars : ∀ (f n : Nat) (ds : List Char) (c : Char),
    c ∈ Nat.toDigitsCore 10 f n ds → c ∈ ds ∨ ∃ k, k < 10 ∧ c = Nat.digitChar k := by
  intro f
  induction f with
  | zero => intro n ds c hc; exact Or.inl hc
  | succ f ih =>
    intro n ds c hc
    simp only [Nat.toDigitsCore] at hc
    by_cases h : n / 10 = 0
    · rw [if_pos h] at hc
      rcases List.mem_cons.mp hc with h1 | h1
      · exact Or.inr ⟨n % 10, by omega, h1⟩
      · exact Or.inl h1
    · rw [if_neg h] at hc
      rcases ih (n / 10) _ c hc with h1 | h1
      · rcases List.mem_cons.mp h1 with h2 | h2
        · exact Or.inr ⟨n % 10, by omega, h2⟩
        · exact Or.inl h2
      · exact Or.inr h1

theorem repr_ne_underscore (n : Nat) : ∀ c ∈ (Nat.repr n).data, c ≠ '_' := by
  intro c hc
  have hd : (Nat.repr n).data = Nat.toDigitsCore 10 (n + 1) n [] := rfl
  rw [hd] at hc
  rcases toDigitsCore_chars (n + 1) n [] c hc with h | ⟨k, hk, he⟩
  · simp at h
  · exact he ▸ digitChar_ne_underscore hk

theorem valDigits_append (l : List Char) (c : Char) :
    valDigits (l ++ [c]) = 10 * valDigits l + (c.toNat - 48) := by
  simp [valDigits, List.foldl_append]

theorem valDigits_toDigitsCore :
    ∀ f n, n < f → valDigits (Nat.toDigitsCore 10 f n []) = n := by
  intro f
  induction f with
  | zero => intro n h; omega
  | succ f ih =>
    intro n hn
    simp only [Nat.toDigitsCore]
    by_cases h : n / 10 = 0
    · rw [if_pos h]
      have hd := digitChar_toNat (show n % 10 < 10 by omega)
      simp [valDigits, hd]
      omega
    · rw [if_neg h]
      rw [toDigitsCore_acc]
      rw [valDigits_append]
      have hlt : n / 10 < f := by omega
      rw [ih (n / 10) hlt]
      rw [digitChar_toNat (show n % 10 < 10 by omega)]
      omega

theorem repr_data_injective {m n : Nat}
    (h : (Nat.repr m).data = (Nat.repr n).data) : m = n := by
  have hm : valDigits (Nat.toDigitsCore 10 (m + 1) m []) = m :=
    valDigits_toDigitsCore _ _ (by omega)
  have hn : valDigits (Nat.toDigitsCore 10 (n + 1) n []) = n :=
    valDigits_toDigitsCore _ _ (by omega)
  have he : Nat.toDigitsCore 10 (m + 1) m [] = Nat.toDigitsCore 10 (n + 1) n [] := h
  rw [he] at hm
  omega

theorem underscore_sep : ∀ (a : List Char), (∀ c ∈ a, c ≠ '_') →
    ∀ (b : List Char), (∀ c ∈ b, c ≠ '_') →
    ∀ (x y : List Char), a ++ '_' :: x = b ++ '_' :: y → a = b ∧ x = y := by
  intro a
  induction a with
  | nil =>
    intro _ b hb x y h
    cases b with
    | nil =>
      simp only [List.nil_append, List.cons.injEq] at h
      exact ⟨rfl, h.2⟩
    | cons c bs =>
      simp only [List.nil_append, List.cons_append, List.cons.injEq] at h
      exact absurd h.1.symm (hb c (List.mem_cons_self ..))
  | cons c as ih =>
    intro ha b hb x y h
    cases b with
    | nil =>
      simp only [List.cons_append, List.nil_append, List.cons.injEq] at h
      exact absurd h.1 (ha c (List.mem_cons_self ..))
    | cons d bs =>
      simp only [List.cons_append, List.cons.injEq] at h
      obtain ⟨h1, h2⟩ := h
      subst h1
      obtain ⟨h3, h4⟩ :=
        ih (fun u hu => ha u (List.mem_cons_of_mem _ hu)) bs
          (fun u hu => hb u (List.mem_cons_of_mem _ hu)) x y h2
      exact ⟨by rw [h3], h4⟩

theorem edgeIdString_counter_inj {c1 c2 : Nat} {s1 t1 r1 s2 t2 r2 : String}
    (h : edgeIdString c1 s1 t1 r1 = edgeIdString c2 s2 t2 r2) : c1 = c2 := by
  have hd : (edgeIdString c1 s1 t1 r1).data = (edgeIdString c2 s2 t2 r2).data := by rw [h]
  have hE : ("E_" : String).data = ['E', '_'] := rfl
  have hU : ("_" : String).data = ['_'] := rfl
  simp only [edgeIdString, String.data_append, hE, hU, List.append_assoc,
    List.cons_append, List.nil_append, List.singleton_append, List.cons.injEq] at hd
  obtain ⟨-, -, hd⟩ := hd
  have hsep := underscore_sep (Nat.repr c1).data (repr_ne_underscore c1)
    (Nat.repr c2).data (repr_ne_underscore c2) _ _ hd
  exact repr_data_injective hsep.1


/-! ## Operation characterization lemmas -/

theorem Node_make_ok {n : Node} (h : NodeOK n) :
    Node.make n.node_id n.label n.entity_type n.synonyms n.ontology_ref n.is_seed = .ok n := by
  obtain ⟨h1, h2, h3⟩ := h
  rw [Node.make, if_neg h1, if_neg h2, if_neg h3]

theorem Edge_make_ok {e : Edge} (h : EdgeOK e) :
    Edge.make e.source_node_id e.target_node_id e.relationship_type
      e.evidence e.confidence = .ok e := by
  obtain ⟨h1, h2, h3, h4, h5, h6, h7⟩ := h
  rw [Edge.make, if_neg h1, if_neg h2, if_neg h3, if_neg h4,
    if_neg (not_not_intro ⟨h5, h6⟩), if_neg (Nat.not_lt.mpr h7)]

theorem Edge_make_ok_iff (s t r : String) (ev : List Evidence) (cf : ℚ) :
    (∃ e, Edge.make s t r ev cf = .ok e) ↔
      (s ≠ "" ∧ t ≠ "" ∧ r ≠ "" ∧ s ≠ t ∧ 0 ≤ cf ∧ cf ≤ 1 ∧
       MIN_PUBMED_CITATIONS ≤ ev.length) := by
  constructor
  · rintro ⟨e, he⟩
    unfold Edge.make at he
    split_ifs at he with h1 h2 h3 h4 h5 h6
    any_goals cases he
    exact ⟨h1, h2, h3, h4, h5.1, h5.2, Nat.not_lt.mp h6⟩
  · rintro ⟨h1, h2, h3, h4, h5a, h5b, h7⟩
    refine ⟨⟨s, t, r, ev, cf⟩, ?_⟩
    rw [Edge.make, if_neg h1, if_neg h2, if_neg h3, if_neg h4,
      if_neg (not_not_intro ⟨h5a, h5b⟩), if_neg (Nat.not_lt.mpr h7)]

theorem validate_constraints_ok_iff {st : GraphStore} :
    validate_constraints st = .ok () ↔
      st.nodes.length ≤ MAX_NODES ∧ calculate_max_depth st ≤ MAX_DEPTH := by
  unfold validate_constraints
  split_ifs with h1 h2
  · constructor
    · intro h; cases h
    · rintro ⟨ha, -⟩; omega
  · constructor
    · intro h; cases h
    · rintro ⟨-, hb⟩; omega
  · constructor
    · intro _; exact ⟨by omega, by omega⟩
    · intro _; rfl

theorem add_node_fail {st : GraphStore} {n : Node}
    (h : MAX_NODES ≤ st.nodes.length ∧ ¬ Dict.contains st.nodes n.node_id) :
    add_node st n = (st, .error (.constraintViolation
      ("Cannot add node: would exceed maximum nodes constraint (" ++
       Nat.repr MAX_NODES ++ ")"))) := by
  rw [add_node, if_pos h]

theorem add_node_ok {st : GraphStore} {n : Node}
    (h : ¬ (MAX_NODES ≤ st.nodes.length ∧ ¬ Dict.contains st.nodes n.node_id)) :
    add_node st n =
      ({ st with
         nodes := Dict.insert st.nodes n.node_id n,
         node_edges :=
           if Dict.contains st.node_edges n.node_id then st.node_edges
           else Dict.insert st.node_edges n.node_id [] }, .ok ()) := by
  rw [add_node, if_neg h]

theorem add_edge_src_missing {st : GraphStore} {e : Edge}
    (h : Dict.contains st.nodes e.source_node_id = false) :
    add_edge st e = (st, .error (.valueError
      ("Source node " ++ e.source_node_id ++ " does not exist"))) := by
  rw [add_edge, if_pos (by simp [h])]

theorem add_edge_tgt_missing {st : GraphStore} {e : Edge}
    (hs : Dict.contains st.nodes e.source_node_id = true)
    (h : Dict.contains st.nodes e.target_node_id = false) :
    add_edge st e = (st, .error (.valueError
      ("Target node " ++ e.target_node_id ++ " does not exist"))) := by
  rw [add_edge, if_neg (by simp [hs]), if_pos (by simp [h])]

theorem add_edge_ok_char {st : GraphStore} {e : Edge}
    (hs : Dict.contains st.nodes e.source_node_id = true)
    (ht : Dict.contains st.nodes e.target_node_id = true)
    (hv : validate_constraints (tentative_insert st e) = .ok ()) :
    add_edge st e = (tentative_insert st e,
      .ok (edgeIdString (st.edge_counter + 1)
        e.source_node_id e.target_node_id e.relationship_type)) := by
  rw [add_edge, if_neg (by simp [hs]), if_neg (by simp [ht]), hv]

theorem add_edge_err_char {st : GraphStore} {e : Edge} {err : Err}
    (hs : Dict.contains st.nodes e.source_node_id = true)
    (ht : Dict.contains st.nodes e.target_node_id = true)
    (hv : validate_constraints (tentative_insert st e) = .error err) :
    add_edge st e = (rollback_edge (tentative_insert st e) e
      (edgeIdString (st.edge_counter + 1)
        e.source_node_id e.target_node_id e.relationship_type), .error err) := by
  rw [add_edge, if_neg (by simp [hs]), if_neg (by simp [ht]), hv]

theorem add_edge_nodes (st : GraphStore) (e : Edge) :
    (add_edge st e).1.nodes = st.nodes := by
  rw [add_edge]
  split_ifs
  any_goals rfl
  split
  · rfl
  · rfl

theorem add_edge_counter_of_ok {st : GraphStore} {e : Edge} {eid : String}
    (h : (add_edge st e).2 = .ok eid) :
    eid = edgeIdString (st.edge_counter + 1)
      e.source_node_id e.target_node_id e.relationship_type ∧
    Dict.contains st.nodes e.source_node_id = true ∧
    Dict.contains st.nodes e.target_node_id = true ∧
    validate_constraints (tentative_insert st e) = .ok () ∧
    (add_edge st e).1 = tentative_insert st e := by
  rcases hs : Dict.contains st.nodes e.source_node_id with _ | _
  case false =>
    rw [add_edge_src_missing hs] at h
    cases h
  case true =>
    rcases ht : Dict.contains st.nodes e.target_node_id with _ | _
    case false =>
      rw [add_edge_tgt_missing hs ht] at h
      cases h
    case true =>
      rcases hv : validate_constraints (tentative_insert st e) with err | u
      case error =>
        rw [add_edge_err_char hs ht hv] at h
        cases h
      case ok =>
        cases u
        rw [add_edge_ok_char hs ht hv] at h
        rw [add_edge_ok_char hs ht hv]
        cases h
        exact ⟨rfl, rfl, rfl, rfl, rfl⟩


/-! ## Claim C5: duplicate pubmed ids and the citation minimum -/

/-- Claim C5 counterexample: an edge whose two evidence entries share one
pubmed id is constructed successfully — the code counts raw evidence
entries (`len(self.evidence)`), not distinct pubmed ids — so the claimed
failure does not occur even though only one distinct pubmed id is present
and the minimum is 2. -/
theorem C5_counterexample :
    Edge.make "a" "b" "R" [⟨"pm1", "s1"⟩, ⟨"pm1", "s2"⟩] 1 =
      .ok ⟨"a", "b", "R", [⟨"pm1", "s1"⟩, ⟨"pm1", "s2"⟩], 1⟩ ∧
    Edge.get_pubmed_ids ⟨"a", "b", "R", [⟨"pm1", "s1"⟩, ⟨"pm1", "s2"⟩], 1⟩ = ["pm1"] ∧
    MIN_PUBMED_CITATIONS = 2 :=
  ⟨by decide, by decide, rfl⟩

/-- Claim C5 (amended): Edge construction succeeds exactly when the
non-emptiness, non-self-loop and confidence-range checks pass and the raw
number of evidence entries is at least the configured minimum; duplicate
pubmed ids do double-count (`get_pubmed_ids` deduplicates, but only for
reporting, not in the constructor check). -/
theorem C5_raw_citation_count (s t r : String) (ev : List Evidence) (cf : ℚ) :
    (∃ e, Edge.make s t r ev cf = .ok e) ↔
      (s ≠ "" ∧ t ≠ "" ∧ r ≠ "" ∧ s ≠ t ∧ 0 ≤ cf ∧ cf ≤ 1 ∧
       MIN_PUBMED_CITATIONS ≤ ev.length) :=
  Edge_make_ok_iff s t r ev cf

/-- Witness for C5: the amended law evaluated at the duplicate-id input. -/
theorem C5_witness :
    (∃ e, Edge.make "a" "b" "R" [⟨"pm1", "s1"⟩, ⟨"pm1", "s2"⟩] 1 = .ok e) ↔
      (("a" : String) ≠ "" ∧ ("b" : String) ≠ "" ∧ ("R" : String) ≠ "" ∧
       ("a" : String) ≠ "b" ∧ (0 : ℚ) ≤ 1 ∧ (1 : ℚ) ≤ 1 ∧
       MIN_PUBMED_CITATIONS ≤ ([⟨"pm1", "s1"⟩, ⟨"pm1", "s2"⟩] : List Evidence).length) :=
  C5_raw_citation_count "a" "b" "R" [⟨"pm1", "s1"⟩, ⟨"pm1", "s2"⟩] 1

/-! ## Claim C8: error classes -/

/-- Claim C8 counterexample: constructing an edge with a single evidence
entry raises the constraint-violation class, not the input/shape
(`ValueError`) class the claim assigns it to. -/
theorem C8_counterexample :
    Edge.make "inflammation" "hemodynamics" "INFLUENCES" [⟨"p1", "s1"⟩] 1 =
      .error (.constraintViolation
        "Edge must have at least 2 PubMed citations. Found 1") := by decide

/-- Claim C8 (amended): insufficient evidence raises the
constraint-violation class at construction (before any store is touched),
while empty-required-field, self-loop and confidence-out-of-range failures
raise the input/shape class; the two classes are distinct constructors. -/
theorem C8_error_classes :
    (∀ (s t r : String) (ev : List Evidence) (cf : ℚ),
      s ≠ "" → t ≠ "" → r ≠ "" → s ≠ t → 0 ≤ cf → cf ≤ 1 →
      ev.length < MIN_PUBMED_CITATIONS →
      Edge.make s t r ev cf = .error (.constraintViolation
        ("Edge must have at least " ++ Nat.repr MIN_PUBMED_CITATIONS ++
         " PubMed citations. Found " ++ Nat.repr ev.length))) ∧
    (∀ (t r : String) (ev : List Evidence) (cf : ℚ),
      Edge.make "" t r ev cf = .error (.valueError "source_node_id cannot be empty")) ∧
    (∀ (s r : String) (ev : List Evidence) (cf : ℚ), s ≠ "" → r ≠ "" →
      Edge.make s s r ev cf =
        .error (.valueError "source and target nodes cannot be the same")) ∧
    (∀ (s t r : String) (ev : List Evidence) (cf : ℚ),
      s ≠ "" → t ≠ "" → r ≠ "" → s ≠ t → ¬ (0 ≤ cf ∧ cf ≤ 1) →
      Edge.make s t r ev cf =
        .error (.valueError "confidence must be between 0.0 and 1.0")) ∧
    (∀ m1 m2, Err.constraintViolation m1 ≠ Err.valueError m2) := by
  refine ⟨?_, ?_, ?_, ?_, ?_⟩
  · intro s t r ev cf h1 h2 h3 h4 h5 h6 h7
    rw [Edge.make, if_neg h1, if_neg h2, if_neg h3, if_neg h4,
      if_neg (not_not_intro ⟨h5, h6⟩), if_pos h7]
  · intro t r ev cf
    rw [Edge.make, if_pos rfl]
  · intro s r ev cf h1 h3
    rw [Edge.make, if_neg h1, if_neg h1, if_neg h3, if_pos rfl]
  · intro s t r ev cf h1 h2 h3 h4 h5
    rw [Edge.make, if_neg h1, if_neg h2, if_neg h3, if_neg h4, if_pos h5]
  · intro m1 m2 h
    cases h

/-- Witness for C8: the amended classification applied at a one-evidence
input. -/
theorem C8_witness :
    Edge.make "inflammation" "hemodynamics" "INFLUENCES" [⟨"p1", "s1"⟩] 1 =
      .error (.constraintViolation
        ("Edge must have at least " ++ Nat.repr MIN_PUBMED_CITATIONS ++
         " PubMed citations. Found " ++
         Nat.repr ([⟨"p1", "s1"⟩] : List Evidence).length)) :=
  C8_error_classes.1 "inflammation" "hemodynamics" "INFLUENCES" [⟨"p1", "s1"⟩] 1
    (by decide) (by decide) (by decide) (by decide) (by decide) (by decide) (by decide)

/-! ## Claim C9: seed permanence -/

/-- Claim C9 counterexample: `add_node` overwrites the seed node
`inflammation` with a non-seed node, changing the node that the seed id
maps to and clearing its `is_seed` flag. -/
theorem C9_counterexample :
    (add_node GraphStore.init fakeInflammation).2 = .ok () ∧
    Dict.find? (add_node GraphStore.init fakeInflammation).1.nodes "inflammation" =
      some fakeInflammation ∧
    fakeInflammation.is_seed = false ∧
    (Dict.find? GraphStore.init.nodes "inflammation").map Node.is_seed = some true :=
  ⟨by decide, by decide, rfl, by decide⟩

/-! ## Claim C1: rollback atomicity counterexample -/

/-- Claim C1 counterexample: after a constraint-violating `add_edge` is
rolled back, the node, edge, and adjacency maps are restored, but the edge
counter is not: the next successful `add_edge` returns `E_4_...` where it
would have returned `E_3_...` had the failed call never happened, so the
id assigned to a later edge does observe the failed attempt. -/
theorem C1_counterexample :
    (add_edge chainStore (mkEdgeR "b" "c")).2 =
      .error (.constraintViolation "Graph exceeds maximum depth constraint: 3 > 2") ∧
    chainStoreAfter.nodes = chainStore.nodes ∧
    chainStoreAfter.edges = chainStore.edges ∧
    chainStoreAfter.node_edges = chainStore.node_edges ∧
    (add_edge chainStore (mkEdgeR "hemodynamics" "a")).2 = .ok "E_3_hemodynamics_a_R" ∧
    (add_edge chainStoreAfter (mkEdgeR "hemodynamics" "a")).2 = .ok "E_4_hemodynamics_a_R" ∧
    ("E_3_hemodynamics_a_R" : String) ≠ "E_4_hemodynamics_a_R" :=
  ⟨by decide, by decide, by decide, by decide, by decide, by decide, by decide⟩

/-! ## Claim C2: depth-invariant counterexample -/

/-- Claim C2 counterexample: a store reachable by successful `add_node` and
`add_edge` calls in which a seed node has BFS depth 3 > MAX_DEPTH: a
detached chain `a → b → c → d` is built while no seed reaches it (so every
insertion validates), and then `add_node` overwrites `a` with a seed-flagged
node. -/
theorem C2_counterexample :
    ReachableOps promotedStore ∧
    Dict.find? promotedStore.nodes "a" = some nodeASeed ∧
    nodeASeed.is_seed = true ∧
    bfs_depth promotedStore "a" = 3 ∧
    MAX_DEPTH = 2 := by
  refine ⟨?_, by decide, rfl, by decide, rfl⟩
  have h0 : ReachableOps GraphStore.init := .init
  have h1 := ReachableOps.step h0
    (StepOps.addNode _ nodeA ⟨by decide, by decide, by decide⟩ (by decide))
  have h2 := ReachableOps.step h1
    (StepOps.addNode _ nodeB ⟨by decide, by decide, by decide⟩ (by decide))
  have h3 := ReachableOps.step h2
    (StepOps.addNode _ nodeC ⟨by decide, by decide, by decide⟩ (by decide))
  have h4 := ReachableOps.step h3
    (StepOps.addNode _ nodeD ⟨by decide, by decide, by decide⟩ (by decide))
  have h5 := ReachableOps.step h4
    (StepOps.addEdge _ (mkEdgeR "a" "b")
      ⟨by decide, by decide, by decide, by decide, by decide, by decide, by decide⟩
      "E_1_a_b_R" (by decide))
  have h6 := ReachableOps.step h5
    (StepOps.addEdge _ (mkEdgeR "b" "c")
      ⟨by decide, by decide, by decide, by decide, by decide, by decide, by decide⟩
      "E_2_b_c_R" (by decide))
  have h7 := ReachableOps.step h6
    (StepOps.addEdge _ (mkEdgeR "c" "d")
      ⟨by decide, by decide, by decide, by decide, by decide, by decide, by decide⟩
      "E_3_c_d_R" (by decide))
  exact ReachableOps.step h7
    (StepOps.addNode _ nodeASeed ⟨by decide, by decide, by decide⟩ (by decide))

/-! ## Claim C4: round-trip counterexample -/

/-- Claim C4 counterexample: a store satisfying the global invariants whose
export/import round trip loses a node: the seed-flagged node `x` (added by
`add_node`) is skipped by `from_dict`, because seed-flagged snapshot
records are only merged into already-initialized seed ids. -/
theorem C4_counterexample :
    (add_node GraphStore.init nodeXSeed).2 = .ok () ∧
    validate_constraints xSeedStore = .ok () ∧
    Dict.find? xSeedStore.nodes "x" = some nodeXSeed ∧
    (from_dict xSeedStore (to_dict xSeedStore)).2 = .ok () ∧
    Dict.find? (from_dict xSeedStore (to_dict xSeedStore)).1.nodes "x" = none :=
  ⟨by decide, by decide, by decide, by decide, by decide⟩

/-! ## Claim C6: edge-id uniqueness counterexample -/

/-- Claim C6 counterexample: `from_dict` resets the edge counter while
preserving snapshot edge ids, so after a round trip the next `add_edge`
regenerates an id already present in the store and silently replaces that
edge (the edge count does not grow). -/
theorem C6_counterexample :
    (add_edge GraphStore.init (mkEdgeR "inflammation" "hemodynamics")).2 =
      .ok "E_1_inflammation_hemodynamics_R" ∧
    (from_dict oneEdgeStore (to_dict oneEdgeStore)).2 = .ok () ∧
    reimportedStore.edge_counter = 0 ∧
    Dict.contains reimportedStore.edges "E_1_inflammation_hemodynamics_R" = true ∧
    (add_edge reimportedStore (mkEdgeR "inflammation" "hemodynamics")).2 =
      .ok "E_1_inflammation_hemodynamics_R" ∧
    (add_edge reimportedStore (mkEdgeR "inflammation" "hemodynamics")).1.edges.length =
      reimportedStore.edges.length :=
  ⟨by decide, by decide, by decide, by decide, by decide, by decide⟩

/-! ## Claim C7: import validation counterexample -/

/-- Claim C7 counterexample: importing a snapshot whose 28 non-seed nodes
plus the 3 seeds exceed `MAX_NODES = 30` raises a constraint violation
partway through the replay (the `add_node` cap check runs during import),
contradicting the claim that `from_dict` completes without raising on
max-nodes-violating snapshots. -/
theorem C7_counterexample :
    (from_dict GraphStore.init oversizedSnapshot).2 =
      .error (.constraintViolation
        "Cannot add node: would exceed maximum nodes constraint (30)") ∧
    (from_dict GraphStore.init oversizedSnapshot).1.nodes.length = 30 ∧
    MAX_NODES = 30 :=
  ⟨by decide, by decide, rfl⟩


/-! ## Canonical adjacency-map lemmas -/

theorem Dict.insert_append_of_not_contains {α : Type} {m : Dict α} {k : String}
    (h : Dict.contains m k = false) (v : α) : Dict.insert m k v = m ++ [(k, v)] := by
  induction m with
  | nil => rfl
  | cons p t ih =>
    obtain ⟨k', v'⟩ := p
    by_cases hk : k' = k
    · subst hk
      unfold Dict.contains at h
      rw [Dict.find?, if_pos rfl] at h
      simp at h
    · have h' : Dict.contains t k = false := by
        unfold Dict.contains at h ⊢
        rw [Dict.find?, if_neg hk] at h
        exact h
      simp only [Dict.insert, if_neg hk, List.cons_append]
      rw [ih h']

theorem Dict.contains_insert_monotone {α : Type} {m : Dict α} {k' : String}
    (h : Dict.contains m k' = true) (k : String) (v : α) :
    Dict.contains (Dict.insert m k v) k' = true := by
  by_cases hk : k = k'
  · subst hk
    exact Dict.contains_insert_self m k v
  · rw [Dict.contains_insert_ne m k v hk]
    exact h

theorem Dict.contains_congr_of_keys_eq {α β : Type} {m1 : Dict α} {m2 : Dict β}
    (h : Dict.keys m1 = Dict.keys m2) (k : String) :
    Dict.contains m1 k = Dict.contains m2 k := by
  rw [Bool.eq_iff_iff, Dict.contains_iff_mem_keys, Dict.contains_iff_mem_keys, h]

theorem Dict.find?_canon {β : Type} (f : String → β) :
    ∀ (ks : List String) {k : String}, k ∈ ks →
      Dict.find? (ks.map (fun x => (x, f x))) k = some (f k) := by
  intro ks
  induction ks with
  | nil => intro k hk; simp at hk
  | cons a t ih =>
    intro k hk
    by_cases ha : a = k
    · subst ha
      simp only [List.map_cons]
      rw [Dict.find?, if_pos rfl]
    · simp only [List.map_cons]
      rw [Dict.find?, if_neg ha]
      exact ih ((List.mem_cons.mp hk).resolve_left (fun he => ha he.symm))

theorem Dict.getD_canon {β : Type} (f : String → β) (ks : List String) {k : String}
    (hk : k ∈ ks) (d : β) :
    Dict.getD (ks.map (fun x => (x, f x))) k d = f k := by
  rw [Dict.getD, Dict.find?_canon f ks hk]
  rfl

theorem Dict.keys_canon {β : Type} (f : String → β) (ks : List String) :
    Dict.keys (ks.map (fun x => (x, f x))) = ks := by
  induction ks with
  | nil => rfl
  | cons a t ih =>
    simp only [List.map_cons, Dict.keys_cons]
    rw [ih]

theorem Dict.insert_canon {β : Type} (f : String → β) :
    ∀ (ks : List String), ks.Nodup → ∀ {k : String}, k ∈ ks → ∀ (v : β),
      Dict.insert (ks.map (fun x => (x, f x))) k v =
        ks.map (fun x => (x, if x = k then v else f x)) := by
  intro ks
  induction ks with
  | nil => intro _ k hk; simp at hk
  | cons a t ih =>
    intro hnd k hk v
    rw [List.nodup_cons] at hnd
    simp only [List.map_cons]
    by_cases ha : a = k
    · subst ha
      have h1 : Dict.insert ((a, f a) :: List.map (fun x => (x, f x)) t) a v =
          (a, v) :: List.map (fun x => (x, f x)) t := by
        simp [Dict.insert]
      rw [h1, if_pos rfl]
      congr 1
      apply (List.map_congr_left ?_).symm
      intro x hx
      rw [if_neg (fun (he : x = a) => hnd.1 (he ▸ hx))]
    · simp only [Dict.insert, if_neg ha]
      rw [ih hnd.2 ((List.mem_cons.mp hk).resolve_left (fun he => ha he.symm)) v]

theorem incident_append (k : String) (m : Dict Edge) (eid : String) (e : Edge) :
    incident k (m ++ [(eid, e)]) =
      incident k m ++
        (if e.source_node_id = k ∨ e.target_node_id = k then [eid] else []) := by
  unfold incident
  rw [List.filterMap_append]
  congr 1
  by_cases h : e.source_node_id = k ∨ e.target_node_id = k
  · rw [if_pos h]
    simp [List.filterMap, h]
  · rw [if_neg h]
    simp [List.filterMap, h]

theorem incident_nil_of_no_endpoint {k : String} {m : Dict Edge}
    (h : ∀ p ∈ m, p.2.source_node_id ≠ k ∧ p.2.target_node_id ≠ k) :
    incident k m = [] := by
  unfold incident
  rw [List.filterMap_eq_nil]
  intro p hp
  rw [if_neg]
  rcases h p hp with ⟨h1, h2⟩
  rintro (h3 | h3)
  · exact h1 h3
  · exact h2 h3

theorem mem_keys_of_mem_incident {k x : String} {m : Dict Edge}
    (h : x ∈ incident k m) : x ∈ Dict.keys m := by
  unfold incident at h
  rcases List.mem_filterMap.mp h with ⟨p, hp, he⟩
  rcases ite_eq_iff.mp he with ⟨-, he⟩ | ⟨-, he⟩
  · cases he
    exact List.mem_map_of_mem Prod.fst hp
  · cases he


/-! ## The tentative insertion and its rollback -/

theorem tentative_insert_eq {st : GraphStore} {e : Edge}
    (hst : e.source_node_id ≠ e.target_node_id)
    (hs : Dict.contains st.node_edges e.source_node_id = true)
    (ht : Dict.contains st.node_edges e.target_node_id = true) :
    tentative_insert st e =
      { nodes := st.nodes,
        edges := Dict.insert st.edges
          (edgeIdString (st.edge_counter + 1)
            e.source_node_id e.target_node_id e.relationship_type) e,
        node_edges := Dict.insert
          (Dict.insert st.node_edges e.source_node_id
            (Dict.getD st.node_edges e.source_node_id [] ++
             [edgeIdString (st.edge_counter + 1)
               e.source_node_id e.target_node_id e.relationship_type]))
          e.target_node_id
          (Dict.getD st.node_edges e.target_node_id [] ++
           [edgeIdString (st.edge_counter + 1)
             e.source_node_id e.target_node_id e.relationship_type]),
        edge_counter := st.edge_counter + 1 } := by
  simp only [tentative_insert, hs, if_true, reduceIte]
  rw [Dict.contains_insert_ne st.node_edges e.source_node_id _ hst, ht]
  simp only [if_true, reduceIte]
  rw [Dict.getD_insert_ne st.node_edges e.source_node_id _ hst]

theorem rollback_restores {st : GraphStore} {e : Edge} {ls lt : List String}
    (hst : e.source_node_id ≠ e.target_node_id)
    (hfs : Dict.find? st.node_edges e.source_node_id = some ls)
    (hft : Dict.find? st.node_edges e.target_node_id = some lt)
    (hnins : edgeIdString (st.edge_counter + 1)
      e.source_node_id e.target_node_id e.relationship_type ∉ ls)
    (hnint : edgeIdString (st.edge_counter + 1)
      e.source_node_id e.target_node_id e.relationship_type ∉ lt)
    (hne : Dict.find? st.edges (edgeIdString (st.edge_counter + 1)
      e.source_node_id e.target_node_id e.relationship_type) = none) :
    rollback_edge (tentative_insert st e) e
      (edgeIdString (st.edge_counter + 1)
        e.source_node_id e.target_node_id e.relationship_type) =
      { st with edge_counter := st.edge_counter + 1 } := by
  have hs : Dict.contains st.node_edges e.source_node_id = true := by
    unfold Dict.contains
    rw [hfs]
    rfl
  have ht : Dict.contains st.node_edges e.target_node_id = true := by
    unfold Dict.contains
    rw [hft]
    rfl
  have hgs : Dict.getD st.node_edges e.source_node_id [] = ls := by
    rw [Dict.getD, hfs]
    rfl
  have hgt : Dict.getD st.node_edges e.target_node_id [] = lt := by
    rw [Dict.getD, hft]
    rfl
  rw [tentative_insert_eq hst hs ht, hgs, hgt]
  set eid := edgeIdString (st.edge_counter + 1)
    e.source_node_id e.target_node_id e.relationship_type with heid
  -- the adjacency map of the tentative state
  set neT := Dict.insert (Dict.insert st.node_edges e.source_node_id (ls ++ [eid]))
    e.target_node_id (lt ++ [eid]) with hneT
  have hgTs : Dict.getD neT e.source_node_id [] = ls ++ [eid] := by
    rw [hneT, Dict.getD_insert_ne _ _ _ (Ne.symm hst), Dict.getD_insert_self]
  have hgTt : Dict.getD neT e.target_node_id [] = lt ++ [eid] := by
    rw [hneT, Dict.getD_insert_self]
  unfold rollback_edge
  simp only [hgTs, hgTt]
  rw [if_pos (List.mem_append_right ls (List.mem_singleton_self eid))]
  rw [removeFirst_append_self hnins]
  -- after fixing the source list, the target entry is unchanged
  have hgA : Dict.getD (Dict.insert neT e.source_node_id ls) e.target_node_id [] =
      lt ++ [eid] := by
    rw [Dict.getD_insert_ne _ _ _ hst, hgTt]
  rw [hgA]
  rw [if_pos (List.mem_append_right lt (List.mem_singleton_self eid))]
  rw [removeFirst_append_self hnint]
  rw [Dict.erase_insert_of_find?_none hne]
  have hres : Dict.insert (Dict.insert neT e.source_node_id ls) e.target_node_id lt =
      st.node_edges := by
    rw [hneT]
    exact Dict.insert_restore hst (ls ++ [eid]) (lt ++ [eid]) hfs hft
  rw [hres]


/-! ## The structural invariant: initial store and step preservation -/

theorem WF_init : WF GraphStore.init := by
  refine ⟨?_, ?_, ?_, ?_, ?_, ?_, ?_, ?_, ?_, ?_⟩
  · decide
  · decide
  · decide
  · decide
  · decide
  · decide
  · intro p hp
    exact absurd (show p ∈ ([] : Dict Edge) from hp) (List.not_mem_nil p)
  · intro p hp
    exact absurd (show p ∈ ([] : Dict Edge) from hp) (List.not_mem_nil p)
  · intro eid h
    exact absurd (show eid ∈ ([] : List String) from h) (List.not_mem_nil eid)
  · decide

theorem WF_add_node {st : GraphStore} (hwf : WF st) (n : Node) (hn : NodeOK n) :
    WF (add_node st n).1 := by
  by_cases hg : MAX_NODES ≤ st.nodes.length ∧ ¬ Dict.contains st.nodes n.node_id
  · rw [add_node_fail hg]
    exact hwf
  · rw [add_node_ok hg]
    have hcc : Dict.contains st.node_edges n.node_id = Dict.contains st.nodes n.node_id :=
      Dict.contains_congr_of_keys_eq hwf.ne_keys n.node_id
    rcases hc : Dict.contains st.nodes n.node_id with _ | _
    case neg.true =>
      -- overwrite: keys unchanged everywhere
      have hcc' : Dict.contains st.node_edges n.node_id = true := by rw [hcc, hc]
      refine ⟨?_, hwf.edges_nodup, ?_, ?_, ?_, ?_, hwf.edges_ok, ?_, hwf.counter, ?_⟩
      · exact Dict.nodup_keys_insert hwf.nodes_nodup _ _
      · rw [if_pos hcc', Dict.keys_insert_of_contains hc]
        exact hwf.ne_keys
      · rw [if_pos hcc']
        exact hwf.ne_canon
      · intro p hp
        rcases Dict.mem_insert hp with h1 | h1
        · exact hwf.key_coh p h1
        · rw [h1]
      · intro p hp
        rcases Dict.mem_insert hp with h1 | h1
        · exact hwf.nodes_ok p h1
        · rw [h1]
          exact hn
      · intro p hp
        rcases hwf.endpoints p hp with ⟨h1, h2⟩
        exact ⟨Dict.contains_insert_monotone h1 _ _, Dict.contains_insert_monotone h2 _ _⟩
      · rw [Dict.length_insert_of_contains hc]
        exact hwf.nodes_le
    case neg.false =>
      -- genuinely new node: both maps gain a fresh key with empty adjacency
      have hcc' : Dict.contains st.node_edges n.node_id = false := by rw [hcc, hc]
      have hlen : st.nodes.length < MAX_NODES := by
        rcases Nat.lt_or_ge st.nodes.length MAX_NODES with h | h
        · exact h
        · exact absurd ⟨h, by rw [hc]; simp⟩ hg
      have hknodes : Dict.keys (Dict.insert st.nodes n.node_id n) =
          Dict.keys st.nodes ++ [n.node_id] := Dict.keys_insert_of_not_contains hc n
      have hkne : Dict.keys (Dict.insert st.node_edges n.node_id []) =
          Dict.keys st.node_edges ++ [n.node_id] :=
        Dict.keys_insert_of_not_contains hcc' []
      refine ⟨?_, hwf.edges_nodup, ?_, ?_, ?_, ?_, hwf.edges_ok, ?_, hwf.counter, ?_⟩
      · exact Dict.nodup_keys_insert hwf.nodes_nodup _ _
      · rw [if_neg (by rw [hcc']; simp), hkne, hknodes, hwf.ne_keys]
      · rw [if_neg (by rw [hcc']; simp), hkne]
        rw [Dict.insert_append_of_not_contains hcc']
        rw [List.map_append]
        have hinc : incident n.node_id st.edges = [] := by
          apply incident_nil_of_no_endpoint
          intro p hp
          rcases hwf.endpoints p hp with ⟨h1, h2⟩
          constructor
          · intro heq
            rw [heq, hc] at h1
            cases h1
          · intro heq
            rw [heq, hc] at h2
            cases h2
        show st.node_edges ++ [(n.node_id, ([] : List String))] =
            List.map (fun k => (k, incident k st.edges)) (Dict.keys st.node_edges) ++
            List.map (fun k => (k, incident k st.edges)) [n.node_id]
        rw [← hwf.ne_canon]
        simp [hinc]
      · intro p hp
        rcases Dict.mem_insert hp with h1 | h1
        · exact hwf.key_coh p h1
        · rw [h1]
      · intro p hp
        rcases Dict.mem_insert hp with h1 | h1
        · exact hwf.nodes_ok p h1
        · rw [h1]
          exact hn
      · intro p hp
        rcases hwf.endpoints p hp with ⟨h1, h2⟩
        exact ⟨Dict.contains_insert_monotone h1 _ _, Dict.contains_insert_monotone h2 _ _⟩
      · rw [Dict.length_insert_of_not_contains hc]
        omega

theorem WF_validate_umls {st : GraphStore} (hwf : WF st) (nid cui : String) :
    WF (validate_with_umls st nid cui).1 := by
  unfold validate_with_umls
  rcases hf : Dict.find? st.nodes nid with _ | n
  · exact hwf
  · have hc : Dict.contains st.nodes nid = true := by
      unfold Dict.contains
      rw [hf]
      rfl
    refine ⟨?_, hwf.edges_nodup, ?_, hwf.ne_canon, ?_, ?_, hwf.edges_ok, ?_, hwf.counter, ?_⟩
    · exact Dict.nodup_keys_insert hwf.nodes_nodup _ _
    · rw [Dict.keys_insert_of_contains hc]
      exact hwf.ne_keys
    · intro p hp
      rcases Dict.mem_insert hp with h1 | h1
      · exact hwf.key_coh p h1
      · rw [h1]
        exact hwf.key_coh (nid, n) (Dict.mem_of_find? hf)
    · intro p hp
      rcases Dict.mem_insert hp with h1 | h1
      · exact hwf.nodes_ok p h1
      · rw [h1]
        have := hwf.nodes_ok (nid, n) (Dict.mem_of_find? hf)
        exact ⟨this.1, this.2.1, this.2.2⟩
    · intro p hp
      rcases hwf.endpoints p hp with ⟨h1, h2⟩
      exact ⟨Dict.contains_insert_monotone h1 _ _, Dict.contains_insert_monotone h2 _ _⟩
    · rw [Dict.length_insert_of_contains hc]
      exact hwf.nodes_le


/-- Under the counter invariant, the id generated next is absent from the
edge map. -/
theorem eid_fresh {st : GraphStore} (hwf : WF st) (e : Edge) :
    Dict.find? st.edges (edgeIdString (st.edge_counter + 1)
      e.source_node_id e.target_node_id e.relationship_type) = none := by
  rcases hf : Dict.find? st.edges (edgeIdString (st.edge_counter + 1)
      e.source_node_id e.target_node_id e.relationship_type) with _ | v
  · rfl
  · exfalso
    have hk := Dict.mem_keys_of_find? hf
    rcases hwf.counter _ hk with ⟨c, s, t, r, h1, h2, heq⟩
    have h3 : c = st.edge_counter + 1 := edgeIdString_counter_inj heq.symm
    omega

/-- The generated id is also absent from every adjacency list. -/
theorem eid_not_in_adj {st : GraphStore} (hwf : WF st) (e : Edge) {k : String} {l : List String}
    (hfk : Dict.find? st.node_edges k = some l) :
    edgeIdString (st.edge_counter + 1)
      e.source_node_id e.target_node_id e.relationship_type ∉ l := by
  intro hmem
  have hkk : k ∈ Dict.keys st.node_edges := Dict.mem_keys_of_find? hfk
  have hcanon := hwf.ne_canon
  have hfk2 : Dict.find? st.node_edges k = some (incident k st.edges) := by
    rw [hcanon]
    exact Dict.find?_canon _ _ hkk
  rw [hfk2] at hfk
  cases hfk
  have hmem2 := mem_keys_of_mem_incident hmem
  have hnone := eid_fresh hwf e
  exact Dict.find?_eq_none_iff.mp hnone hmem2

theorem WF_add_edge {st : GraphStore} (hwf : WF st) (e : Edge) (he : EdgeOK e) :
    WF (add_edge st e).1 := by
  rcases hs : Dict.contains st.nodes e.source_node_id with _ | _
  case false =>
    rw [add_edge_src_missing hs]
    exact hwf
  case true =>
    rcases ht : Dict.contains st.nodes e.target_node_id with _ | _
    case false =>
      rw [add_edge_tgt_missing hs ht]
      exact hwf
    case true =>
      have hst : e.source_node_id ≠ e.target_node_id := he.2.2.2.1
      have hsK : Dict.contains st.node_edges e.source_node_id = true := by
        rw [Dict.contains_congr_of_keys_eq hwf.ne_keys]
        exact hs
      have htK : Dict.contains st.node_edges e.target_node_id = true := by
        rw [Dict.contains_congr_of_keys_eq hwf.ne_keys]
        exact ht
      have hndK : (Dict.keys st.node_edges).Nodup := by
        rw [hwf.ne_keys]
        exact hwf.nodes_nodup
      have hsMem : e.source_node_id ∈ Dict.keys st.node_edges :=
        Dict.contains_iff_mem_keys.mp hsK
      have htMem : e.target_node_id ∈ Dict.keys st.node_edges :=
        Dict.contains_iff_mem_keys.mp htK
      have hfresh := eid_fresh hwf e
      have hfreshC : Dict.contains st.edges (edgeIdString (st.edge_counter + 1)
          e.source_node_id e.target_node_id e.relationship_type) = false := by
        unfold Dict.contains
        rw [hfresh]
        rfl
      -- the tentative state satisfies the invariant except possibly the
      -- two global constraints; establish its fields once
      have hT := tentative_insert_eq hst hsK htK
      have hWFT : WF (tentative_insert st e) := by
        set eid := edgeIdString (st.edge_counter + 1)
          e.source_node_id e.target_node_id e.relationship_type with heid
        have hEapp : Dict.insert st.edges eid e = st.edges ++ [(eid, e)] :=
          Dict.insert_append_of_not_contains hfreshC e
        have hgs : Dict.getD st.node_edges e.source_node_id [] =
            incident e.source_node_id st.edges := by
          conv_lhs => rw [hwf.ne_canon]
          exact Dict.getD_canon _ _ hsMem []
        have hgt : Dict.getD st.node_edges e.target_node_id [] =
            incident e.target_node_id st.edges := by
          conv_lhs => rw [hwf.ne_canon]
          exact Dict.getD_canon _ _ htMem []
        have hne1 : Dict.insert st.node_edges e.source_node_id
            (Dict.getD st.node_edges e.source_node_id [] ++ [eid]) =
            (Dict.keys st.node_edges).map (fun x => (x,
              if x = e.source_node_id then incident e.source_node_id st.edges ++ [eid]
              else incident x st.edges)) := by
          conv_lhs => rw [hgs, hwf.ne_canon]
          rw [Dict.insert_canon _ _ hndK hsMem]
        have hne2 : Dict.insert (Dict.insert st.node_edges e.source_node_id
              (Dict.getD st.node_edges e.source_node_id [] ++ [eid]))
            e.target_node_id (Dict.getD st.node_edges e.target_node_id [] ++ [eid]) =
            (Dict.keys st.node_edges).map
              (fun x => (x, incident x (st.edges ++ [(eid, e)]))) := by
          rw [hne1, Dict.insert_canon _ _ hndK htMem, hgt]
          apply List.map_congr_left
          intro x hx
          by_cases hxt : x = e.target_node_id
          · subst hxt
            rw [if_pos rfl, incident_append, if_pos (Or.inr rfl)]
          · rw [if_neg hxt]
            by_cases hxs : x = e.source_node_id
            · subst hxs
              rw [if_pos rfl, incident_append, if_pos (Or.inl rfl)]
            · rw [if_neg hxs, incident_append, if_neg, List.append_nil]
              rintro (h1 | h1)
              · exact hxs h1.symm
              · exact hxt h1.symm
        have hcM : Dict.contains (Dict.insert st.node_edges e.source_node_id
            (Dict.getD st.node_edges e.source_node_id [] ++ [eid])) e.target_node_id = true := by
          rw [Dict.contains_insert_ne _ _ _ hst]
          exact htK
        have hkeysNE2 : Dict.keys (Dict.insert (Dict.insert st.node_edges e.source_node_id
              (Dict.getD st.node_edges e.source_node_id [] ++ [eid]))
            e.target_node_id (Dict.getD st.node_edges e.target_node_id [] ++ [eid])) =
            Dict.keys st.node_edges := by
          rw [Dict.keys_insert_of_contains hcM, Dict.keys_insert_of_contains hsK]
        have hkeysE : Dict.keys (Dict.insert st.edges eid e) =
            Dict.keys st.edges ++ [eid] :=
          Dict.keys_insert_of_not_contains hfreshC e
        have hne_keys : Dict.keys (Dict.insert (Dict.insert st.node_edges e.source_node_id
              (Dict.getD st.node_edges e.source_node_id [] ++ [eid]))
            e.target_node_id (Dict.getD st.node_edges e.target_node_id [] ++ [eid])) =
            Dict.keys st.nodes := by
          rw [hkeysNE2, hwf.ne_keys]
        have hne_canon : Dict.insert (Dict.insert st.node_edges e.source_node_id
              (Dict.getD st.node_edges e.source_node_id [] ++ [eid]))
            e.target_node_id (Dict.getD st.node_edges e.target_node_id [] ++ [eid]) =
            (Dict.keys (Dict.insert (Dict.insert st.node_edges e.source_node_id
              (Dict.getD st.node_edges e.source_node_id [] ++ [eid]))
            e.target_node_id (Dict.getD st.node_edges e.target_node_id [] ++ [eid]))).map
              (fun k => (k, incident k (Dict.insert st.edges eid e))) := by
          rw [hkeysNE2, hne2]
          apply List.map_congr_left
          intro x hx
          rw [hEapp]
        have hedges_ok : ∀ p ∈ Dict.insert st.edges eid e, EdgeOK p.2 := by
          intro p hp
          rcases Dict.mem_insert hp with h1 | h1
          · exact hwf.edges_ok p h1
          · rw [h1]
            exact he
        have hendpoints : ∀ p ∈ Dict.insert st.edges eid e,
            Dict.contains st.nodes p.2.source_node_id = true ∧
            Dict.contains st.nodes p.2.target_node_id = true := by
          intro p hp
          rcases Dict.mem_insert hp with h1 | h1
          · exact hwf.endpoints p h1
          · rw [h1]
            exact ⟨hs, ht⟩
        have hcounter : ∀ k ∈ Dict.keys (Dict.insert st.edges eid e),
            ∃ c s t r, 1 ≤ c ∧ c ≤ st.edge_counter + 1 ∧ k = edgeIdString c s t r := by
          intro k hk
          rw [hkeysE] at hk
          rcases List.mem_append.mp hk with h1 | h1
          · rcases hwf.counter k h1 with ⟨c, s, t, r, hc1, hc2, hc3⟩
            exact ⟨c, s, t, r, hc1, by omega, hc3⟩
          · rw [List.mem_singleton.mp h1, heid]
            exact ⟨st.edge_counter + 1, e.source_node_id, e.target_node_id,
              e.relationship_type, by omega, le_refl _, rfl⟩
        rw [hT]
        exact ⟨hwf.nodes_nodup, Dict.nodup_keys_insert hwf.edges_nodup _ _,
          hne_keys, hne_canon, hwf.key_coh, hwf.nodes_ok, hedges_ok, hendpoints,
          hcounter, hwf.nodes_le⟩
      rcases hv : validate_constraints (tentative_insert st e) with err | u
      case error =>
        rw [add_edge_err_char hs ht hv]
        -- the rollback restores everything but the counter
        have hfs : ∃ ls, Dict.find? st.node_edges e.source_node_id = some ls := by
          unfold Dict.contains at hsK
          rcases hq : Dict.find? st.node_edges e.source_node_id with _ | l
          · rw [hq] at hsK
            cases hsK
          · exact ⟨l, rfl⟩
        have hft : ∃ lt, Dict.find? st.node_edges e.target_node_id = some lt := by
          unfold Dict.contains at htK
          rcases hq : Dict.find? st.node_edges e.target_node_id with _ | l
          · rw [hq] at htK
            cases htK
          · exact ⟨l, rfl⟩
        rcases hfs with ⟨ls, hfs⟩
        rcases hft with ⟨lt, hft⟩
        rw [rollback_restores hst hfs hft (eid_not_in_adj hwf e hfs)
          (eid_not_in_adj hwf e hft) hfresh]
        refine ⟨hwf.nodes_nodup, hwf.edges_nodup, hwf.ne_keys, hwf.ne_canon,
          hwf.key_coh, hwf.nodes_ok, hwf.edges_ok, hwf.endpoints, ?_, hwf.nodes_le⟩
        intro k hk
        rcases hwf.counter k hk with ⟨c, s, t, r, hc1, hc2, hc3⟩
        exact ⟨c, s, t, r, hc1, Nat.le_trans hc2 (Nat.le_succ st.edge_counter), hc3⟩
      case ok =>
        cases u
        rw [add_edge_ok_char hs ht hv]
        exact hWFT

theorem WF_stepNI {st st' : GraphStore} (hwf : WF st) (h : StepNI st st') : WF st' := by
  cases h with
  | addNode n hn => exact WF_add_node hwf n hn
  | addEdge e he => exact WF_add_edge hwf e he
  | validateUmls nid cui => exact WF_validate_umls hwf nid cui

theorem WF_reachableNI {st : GraphStore} (h : ReachableNI st) : WF st := by
  induction h with
  | init => exact WF_init
  | step _ hstep ih => exact WF_stepNI ih hstep


/-- `chainStore` is reachable by non-import calls. -/
theorem chainStore_reachableNI : ReachableNI chainStore := by
  have h0 : ReachableNI GraphStore.init := .init
  have h1 := ReachableNI.step h0 (StepNI.addNode _ nodeA (by decide))
  have h2 := ReachableNI.step h1 (StepNI.addNode _ nodeB (by decide))
  have h3 := ReachableNI.step h2 (StepNI.addNode _ nodeC (by decide))
  have h4 := ReachableNI.step h3 (StepNI.addEdge _ (mkEdgeR "inflammation" "a") (by decide))
  exact ReachableNI.step h4 (StepNI.addEdge _ (mkEdgeR "a" "b") (by decide))

/-! ## Claim C1 (amended): rollback restores the maps, not the counter -/

/-- Claim C1 (amended): when `add_edge` fails with a constraint violation
on a well-formed store whose endpoints exist, the node map, edge map and
adjacency index are restored exactly, but the edge counter keeps its bump,
so ids assigned to later edges observe the failed attempt. -/
theorem C1_rollback (st : GraphStore) (e : Edge) (err : Err) (hwf : WF st) (he : EdgeOK e)
    (hs : Dict.contains st.nodes e.source_node_id = true)
    (ht : Dict.contains st.nodes e.target_node_id = true)
    (herr : (add_edge st e).2 = .error err) :
    (add_edge st e).1 = { st with edge_counter := st.edge_counter + 1 } ∧
    (add_edge st e).1.nodes = st.nodes ∧
    (add_edge st e).1.edges = st.edges ∧
    (add_edge st e).1.node_edges = st.node_edges ∧
    (add_edge st e).1.edge_counter = st.edge_counter + 1 := by
  have hst : e.source_node_id ≠ e.target_node_id := he.2.2.2.1
  have hsK : Dict.contains st.node_edges e.source_node_id = true := by
    rw [Dict.contains_congr_of_keys_eq hwf.ne_keys]
    exact hs
  have htK : Dict.contains st.node_edges e.target_node_id = true := by
    rw [Dict.contains_congr_of_keys_eq hwf.ne_keys]
    exact ht
  rcases hv : validate_constraints (tentative_insert st e) with verr | u
  case ok =>
    cases u
    rw [add_edge_ok_char hs ht hv] at herr
    cases herr
  case error =>
    rw [add_edge_err_char hs ht hv] at herr ⊢
    have hfs : ∃ ls, Dict.find? st.node_edges e.source_node_id = some ls := by
      unfold Dict.contains at hsK
      rcases hq : Dict.find? st.node_edges e.source_node_id with _ | l
      · rw [hq] at hsK
        cases hsK
      · exact ⟨l, rfl⟩
    have hft : ∃ lt, Dict.find? st.node_edges e.target_node_id = some lt := by
      unfold Dict.contains at htK
      rcases hq : Dict.find? st.node_edges e.target_node_id with _ | l
      · rw [hq] at htK
        cases htK
      · exact ⟨l, rfl⟩
    rcases hfs with ⟨ls, hfs⟩
    rcases hft with ⟨lt, hft⟩
    rw [rollback_restores hst hfs hft (eid_not_in_adj hwf e hfs)
      (eid_not_in_adj hwf e hft) (eid_fresh hwf e)]
    exact ⟨rfl, rfl, rfl, rfl, rfl⟩

/-- Witness for C1 (amended): the rejected depth-violating insertion on
`chainStore` leaves exactly the counter-bumped store behind. -/
theorem C1_rollback_witness :
    (add_edge chainStore (mkEdgeR "b" "c")).1 =
      { chainStore with edge_counter := chainStore.edge_counter + 1 } ∧
    (add_edge chainStore (mkEdgeR "b" "c")).1.nodes = chainStore.nodes ∧
    (add_edge chainStore (mkEdgeR "b" "c")).1.edges = chainStore.edges ∧
    (add_edge chainStore (mkEdgeR "b" "c")).1.node_edges = chainStore.node_edges ∧
    (add_edge chainStore (mkEdgeR "b" "c")).1.edge_counter = chainStore.edge_counter + 1 :=
  C1_rollback chainStore (mkEdgeR "b" "c")
    (.constraintViolation "Graph exceeds maximum depth constraint: 3 > 2")
    (WF_reachableNI chainStore_reachableNI) (by decide) (by decide) (by decide) (by decide)

/-! ## Claim C6 (amended): id uniqueness without import -/

/-- Claim C6 (amended): on any store reachable without import, a successful
`add_edge` assigns an id that is absent from the edge map, inserting a
genuinely new entry (the count grows by one) — uniqueness relies on the
monotone counter, which import resets (see the counterexample). -/
theorem C6_unique_ids (st : GraphStore) (hreach : ReachableNI st) (e : Edge)
    (he : EdgeOK e) (eid : String) (hok : (add_edge st e).2 = .ok eid) :
    Dict.contains st.edges eid = false ∧
    (add_edge st e).1.edges = Dict.insert st.edges eid e ∧
    (add_edge st e).1.edges.length = st.edges.length + 1 := by
  have hwf := WF_reachableNI hreach
  obtain ⟨heid, hs, ht, hv, hfst⟩ := add_edge_counter_of_ok hok
  have hfresh := eid_fresh hwf e
  have hfreshC : Dict.contains st.edges (edgeIdString (st.edge_counter + 1)
      e.source_node_id e.target_node_id e.relationship_type) = false := by
    unfold Dict.contains
    rw [hfresh]
    rfl
  have hedges : (add_edge st e).1.edges = Dict.insert st.edges eid e := by
    rw [hfst, heid]
    rfl
  refine ⟨by rw [heid]; exact hfreshC, hedges, ?_⟩
  rw [hedges, heid]
  exact Dict.length_insert_of_not_contains hfreshC e

/-- Witness for C6 (amended): the first edge added to a fresh store gets a
fresh id and a net insertion. -/
theorem C6_witness :
    Dict.contains GraphStore.init.edges "E_1_inflammation_hemodynamics_R" = false ∧
    (add_edge GraphStore.init (mkEdgeR "inflammation" "hemodynamics")).1.edges =
      Dict.insert GraphStore.init.edges "E_1_inflammation_hemodynamics_R"
        (mkEdgeR "inflammation" "hemodynamics") ∧
    (add_edge GraphStore.init (mkEdgeR "inflammation" "hemodynamics")).1.edges.length =
      GraphStore.init.edges.length + 1 :=
  C6_unique_ids GraphStore.init ReachableNI.init (mkEdgeR "inflammation" "hemodynamics")
    (by decide) "E_1_inflammation_hemodynamics_R" (by decide)


/-! ## The base invariant, stable across imports and failed calls -/

theorem BaseWF_init : BaseWF GraphStore.init :=
  ⟨by decide, by decide, by decide, by decide⟩

theorem BaseWF_of_nodes_eq {st st' : GraphStore} (h : BaseWF st)
    (he : st'.nodes = st.nodes) : BaseWF st' := by
  refine ⟨?_, ?_, ?_, ?_⟩
  · rw [he]
    exact h.nodes_nodup
  · rw [he]
    exact h.nodes_le
  · intro q hq
    rw [he]
    exact h.seeds_present q hq
  · intro p hp
    rw [he] at hp
    exact h.key_coh p hp

theorem BaseWF_add_node {st : GraphStore} (h : BaseWF st) (n : Node) :
    BaseWF (add_node st n).1 := by
  by_cases hg : MAX_NODES ≤ st.nodes.length ∧ ¬ Dict.contains st.nodes n.node_id
  · rw [add_node_fail hg]
    exact h
  · rw [add_node_ok hg]
    refine ⟨Dict.nodup_keys_insert h.nodes_nodup _ _, ?_, ?_, ?_⟩
    · rcases hc : Dict.contains st.nodes n.node_id with _ | _
      · rw [show ((({ st with
            nodes := Dict.insert st.nodes n.node_id n,
            node_edges := if Dict.contains st.node_edges n.node_id then st.node_edges
              else Dict.insert st.node_edges n.node_id [] } : GraphStore), (.ok () : Except Err Unit)).1.nodes) =
            Dict.insert st.nodes n.node_id n from rfl]
        rw [Dict.length_insert_of_not_contains hc]
        have hlt : st.nodes.length < MAX_NODES := by
          rcases Nat.lt_or_ge st.nodes.length MAX_NODES with h1 | h1
          · exact h1
          · exact absurd ⟨h1, by rw [hc]; simp⟩ hg
        omega
      · rw [show ((({ st with
            nodes := Dict.insert st.nodes n.node_id n,
            node_edges := if Dict.contains st.node_edges n.node_id then st.node_edges
              else Dict.insert st.node_edges n.node_id [] } : GraphStore), (.ok () : Except Err Unit)).1.nodes) =
            Dict.insert st.nodes n.node_id n from rfl]
        rw [Dict.length_insert_of_contains hc]
        exact h.nodes_le
    · intro q hq
      exact Dict.contains_insert_monotone (h.seeds_present q hq) _ _
    · intro p hp
      rcases Dict.mem_insert hp with h1 | h1
      · exact h.key_coh p h1
      · rw [h1]

theorem BaseWF_validate_umls {st : GraphStore} (h : BaseWF st) (nid cui : String) :
    BaseWF (validate_with_umls st nid cui).1 := by
  unfold validate_with_umls
  rcases hf : Dict.find? st.nodes nid with _ | n
  · exact h
  · have hc : Dict.contains st.nodes nid = true := by
      unfold Dict.contains
      rw [hf]
      rfl
    show BaseWF
      ({ st with nodes := Dict.insert st.nodes nid ({ n with ontology_ref := some cui }) })
    refine ⟨Dict.nodup_keys_insert h.nodes_nodup _ _, ?_, ?_, ?_⟩
    · show (Dict.insert st.nodes nid ({ n with ontology_ref := some cui })).length ≤ MAX_NODES
      rw [Dict.length_insert_of_contains hc]
      exact h.nodes_le
    · intro q hq
      exact Dict.contains_insert_monotone (h.seeds_present q hq) _ _
    · intro p hp
      rcases Dict.mem_insert hp with h1 | h1
      · exact h.key_coh p h1
      · rw [h1]
        exact h.key_coh (nid, n) (Dict.mem_of_find? hf)

theorem BaseWF_from_dict_nodes : ∀ (lst : List (String × Node)) (st : GraphStore),
    BaseWF st → BaseWF (from_dict_nodes st lst).1 := by
  intro lst
  induction lst with
  | nil => intro st h; exact h
  | cons p rest ih =>
    intro st h
    obtain ⟨nid, nd⟩ := p
    simp only [from_dict_nodes]
    by_cases hseed : nd.is_seed = false
    · rw [if_pos hseed]
      rcases hm : Node.make nd.node_id nd.label nd.entity_type nd.synonyms
          nd.ontology_ref nd.is_seed with err | node
      · simp only [hm]
        exact h
      · simp only [hm]
        rcases ha : add_node st node with ⟨st', res⟩
        have hb : BaseWF st' := by
          have h2 := BaseWF_add_node h node
          rw [ha] at h2
          exact h2
        rcases res with err | u
        · simp only [ha]
          exact hb
        · simp only [ha]
          exact ih st' hb
    · rw [if_neg hseed]
      rcases hf : Dict.find? st.nodes nid with _ | n
      · simp only [hf]
        exact ih st h
      · simp only [hf]
        have hc : Dict.contains st.nodes nid = true := by
          unfold Dict.contains
          rw [hf]
          rfl
        apply ih
        set upd : Node := { n with ontology_ref := nd.ontology_ref, synonyms := nd.synonyms }
          with hupd
        show BaseWF ({ st with nodes := Dict.insert st.nodes nid upd })
        refine ⟨Dict.nodup_keys_insert h.nodes_nodup _ _, ?_, ?_, ?_⟩
        · show (Dict.insert st.nodes nid upd).length ≤ MAX_NODES
          rw [Dict.length_insert_of_contains hc]
          exact h.nodes_le
        · intro q hq
          exact Dict.contains_insert_monotone (h.seeds_present q hq) _ _
        · intro p hp
          rcases Dict.mem_insert hp with h1 | h1
          · exact h.key_coh p h1
          · rw [h1, hupd]
            exact h.key_coh (nid, n) (Dict.mem_of_find? hf)

theorem from_dict_edges_nodes : ∀ (lst : List (String × EdgeData)) (st : GraphStore),
    (from_dict_edges st lst).1.nodes = st.nodes := by
  intro lst
  induction lst with
  | nil => intro st; rfl
  | cons p rest ih =>
    intro st
    obtain ⟨eid, ed⟩ := p
    simp only [from_dict_edges]
    rcases hm : Edge.make ed.source_node_id ed.target_node_id ed.relationship_type
        ed.evidence ed.confidence with err | edge
    · rfl
    · exact ih _

theorem BaseWF_from_dict (st : GraphStore) (d : Snapshot) :
    BaseWF (from_dict st d).1 := by
  unfold from_dict
  rcases hn : from_dict_nodes (init_seed_entities ⟨[], [], [], 0⟩) d.nodes with ⟨st1, res⟩
  have h1 : BaseWF st1 := by
    have h2 := BaseWF_from_dict_nodes d.nodes (init_seed_entities ⟨[], [], [], 0⟩) BaseWF_init
    rw [hn] at h2
    exact h2
  rcases res with err | u
  · simp only [hn]
    exact h1
  · simp only [hn]
    exact BaseWF_of_nodes_eq h1 (from_dict_edges_nodes d.edges st1)

theorem BaseWF_step {st st' : GraphStore} (h : BaseWF st) (hs : Step st st') : BaseWF st' := by
  cases hs with
  | addNode n hn => exact BaseWF_add_node h n
  | addEdge e he => exact BaseWF_of_nodes_eq h (add_edge_nodes st e)
  | validateUmls nid cui => exact BaseWF_validate_umls h nid cui
  | fromDict d => exact BaseWF_from_dict st d

theorem BaseWF_reachable {st : GraphStore} (h : Reachable st) : BaseWF st := by
  induction h with
  | init => exact BaseWF_init
  | step _ hstep ih => exact BaseWF_step ih hstep


/-! ## Claim C3: the node-capacity invariant -/

/-- Claim C3: on every reachable store (any operation sequence, imports and
failed calls included) the node ids are distinct and number at most
`MAX_NODES`; `add_node` raises the capacity error exactly when the store
already holds `MAX_NODES` ids and the submitted id is new, a rejecting call
leaves the store untouched, and an accepted call inserts or overwrites by
id and ensures an adjacency entry exists. -/
theorem C3_max_nodes (st : GraphStore) (h : Reachable st) :
    (Dict.keys st.nodes).Nodup ∧
    st.nodes.length ≤ MAX_NODES ∧
    ∀ n : Node,
      (((add_node st n).2 = .error (.constraintViolation
          ("Cannot add node: would exceed maximum nodes constraint (" ++
           Nat.repr MAX_NODES ++ ")")) ↔
        st.nodes.length = MAX_NODES ∧ Dict.contains st.nodes n.node_id = false) ∧
      (st.nodes.length = MAX_NODES ∧ Dict.contains st.nodes n.node_id = false →
        (add_node st n).1 = st) ∧
      (¬ (st.nodes.length = MAX_NODES ∧ Dict.contains st.nodes n.node_id = false) →
        (add_node st n).1.nodes = Dict.insert st.nodes n.node_id n ∧
        Dict.contains (add_node st n).1.node_edges n.node_id = true)) := by
  have hb := BaseWF_reachable h
  refine ⟨hb.nodes_nodup, hb.nodes_le, ?_⟩
  intro n
  have hcond : (MAX_NODES ≤ st.nodes.length ∧ ¬ Dict.contains st.nodes n.node_id) ↔
      (st.nodes.length = MAX_NODES ∧ Dict.contains st.nodes n.node_id = false) := by
    have hle := hb.nodes_le
    constructor
    · rintro ⟨h1, h2⟩
      refine ⟨by omega, ?_⟩
      rcases hc : Dict.contains st.nodes n.node_id with _ | _
      · rfl
      · exact absurd hc h2
    · rintro ⟨h1, h2⟩
      refine ⟨by omega, ?_⟩
      rw [h2]
      simp
  refine ⟨⟨?_, ?_⟩, ?_, ?_⟩
  · intro herr
    by_cases hg : MAX_NODES ≤ st.nodes.length ∧ ¬ Dict.contains st.nodes n.node_id
    · exact hcond.mp hg
    · rw [add_node_ok hg] at herr
      cases herr
  · intro hrhs
    rw [add_node_fail (hcond.mpr hrhs)]
  · intro hrhs
    rw [add_node_fail (hcond.mpr hrhs)]
  · intro hrhs
    have hg : ¬ (MAX_NODES ≤ st.nodes.length ∧ ¬ Dict.contains st.nodes n.node_id) :=
      fun hg => hrhs (hcond.mp hg)
    rw [add_node_ok hg]
    refine ⟨rfl, ?_⟩
    show Dict.contains (if Dict.contains st.node_edges n.node_id then st.node_edges
      else Dict.insert st.node_edges n.node_id []) n.node_id = true
    rcases hc : Dict.contains st.node_edges n.node_id with _ | _
    · rw [if_neg (by decide : ¬ (false = true))]
      exact Dict.contains_insert_self _ _ _
    · rw [if_pos (rfl : (true : Bool) = true)]
      exact hc

/-- Witness for C3: the law evaluated on the freshly initialized store. -/
theorem C3_max_nodes_witness :
    (Dict.keys GraphStore.init.nodes).Nodup ∧
    GraphStore.init.nodes.length ≤ MAX_NODES ∧
    ∀ n : Node,
      (((add_node GraphStore.init n).2 = .error (.constraintViolation
          ("Cannot add node: would exceed maximum nodes constraint (" ++
           Nat.repr MAX_NODES ++ ")")) ↔
        GraphStore.init.nodes.length = MAX_NODES ∧
        Dict.contains GraphStore.init.nodes n.node_id = false) ∧
      (GraphStore.init.nodes.length = MAX_NODES ∧
        Dict.contains GraphStore.init.nodes n.node_id = false →
        (add_node GraphStore.init n).1 = GraphStore.init) ∧
      (¬ (GraphStore.init.nodes.length = MAX_NODES ∧
          Dict.contains GraphStore.init.nodes n.node_id = false) →
        (add_node GraphStore.init n).1.nodes =
          Dict.insert GraphStore.init.nodes n.node_id n ∧
        Dict.contains (add_node GraphStore.init n).1.node_edges n.node_id = true)) :=
  C3_max_nodes GraphStore.init Reachable.init

/-! ## Claim C9 (amended): seed ids are never deleted -/

/-- Claim C9 (amended): after every call of every operation sequence
(imports and failed calls included) each of the three seed ids is still
present in the node map; only this presence is permanent — the node stored
under a seed id can be replaced by `add_node` (see the counterexample). -/
theorem C9_seed_ids_permanent (st : GraphStore) (h : Reachable st) :
    ∀ q ∈ SEED_ENTITIES, Dict.contains st.nodes q.1 = true :=
  (BaseWF_reachable h).seeds_present

/-- Witness for C9 (amended). -/
theorem C9_witness :
    Dict.contains GraphStore.init.nodes "inflammation" = true :=
  C9_seed_ids_permanent GraphStore.init Reachable.init
    ("inflammation", ⟨"Inflammation", "Biological Process",
      ["Inflammatory Response", "Inflammatory Process"]⟩) (by decide)

/-! ## Claim C10: neighbor deduplication -/

theorem nodup_fold_ids (g : Edge → String) :
    ∀ (l : List Edge) (acc : List String), acc.Nodup →
      (l.foldl (fun acc e =>
        if g e ∈ acc then acc else acc ++ [g e]) acc).Nodup := by
  intro l
  induction l with
  | nil => intro acc h; exact h
  | cons e t ih =>
    intro acc h
    rw [List.foldl_cons]
    by_cases hg : g e ∈ acc
    · rw [if_pos hg]
      exact ih acc h
    · rw [if_neg hg]
      apply ih
      simp [List.nodup_append, h, hg]

theorem filterMap_find?_nodup {st : GraphStore}
    (hcoh : ∀ p ∈ st.nodes, p.2.node_id = p.1) :
    ∀ (ids : List String), ids.Nodup →
      ((ids.filterMap (fun nid => Dict.find? st.nodes nid)).map Node.node_id).Nodup := by
  intro ids
  induction ids with
  | nil => intro _; simp
  | cons a t ih =>
    intro hnd
    rw [List.nodup_cons] at hnd
    rw [List.filterMap_cons]
    rcases hf : Dict.find? st.nodes a with _ | v
    · exact ih hnd.2
    · rw [List.map_cons, List.nodup_cons]
      refine ⟨?_, ih hnd.2⟩
      have hva : v.node_id = a := hcoh (a, v) (Dict.mem_of_find? hf)
      intro hmem
      rcases List.mem_map.mp hmem with ⟨w, hw, hwid⟩
      rcases List.mem_filterMap.mp hw with ⟨b, hb, hfb⟩
      have hwb : w.node_id = b := hcoh (b, w) (Dict.mem_of_find? hfb)
      have hab : a = b := by
        rw [← hva, ← hwid, hwb]
      exact hnd.1 (hab ▸ hb)

theorem mem_filterMap_find? {st : GraphStore}
    (hcoh : ∀ p ∈ st.nodes, p.2.node_id = p.1) {ids : List String} {nd : Node}
    (h : nd ∈ ids.filterMap (fun nid => Dict.find? st.nodes nid)) :
    Dict.find? st.nodes nd.node_id = some nd := by
  rcases List.mem_filterMap.mp h with ⟨b, hb, hfb⟩
  have hid : nd.node_id = b := hcoh (b, nd) (Dict.mem_of_find? hfb)
  rw [hid]
  exact hfb

/-- Claim C10: for every reachable store, node id and direction,
`get_neighbors` returns each neighbor at most once (deduplicated by node
id) and every returned node is the one stored in the node map under its
id. -/
theorem C10_neighbors (st : GraphStore) (h : Reachable st) (nid dir : String) :
    ((get_neighbors st nid dir).map Node.node_id).Nodup ∧
    ∀ nd ∈ get_neighbors st nid dir, Dict.find? st.nodes nd.node_id = some nd := by
  have hb := BaseWF_reachable h
  constructor
  · exact filterMap_find?_nodup hb.key_coh _
      (nodup_fold_ids (fun e =>
        if dir = "outgoing" then e.target_node_id
        else if dir = "incoming" then e.source_node_id
        else if e.source_node_id = nid then e.target_node_id
        else e.source_node_id) (get_node_edges st nid dir) [] List.nodup_nil)
  · intro nd hnd
    exact mem_filterMap_find? hb.key_coh hnd

/-- Witness for C10: evaluated on the one-edge store. -/
theorem C10_neighbors_witness :
    ((get_neighbors GraphStore.init "inflammation" "outgoing").map Node.node_id).Nodup ∧
    ∀ nd ∈ get_neighbors GraphStore.init "inflammation" "outgoing",
      Dict.find? GraphStore.init.nodes nd.node_id = some nd :=
  C10_neighbors GraphStore.init Reachable.init "inflammation" "outgoing"


/-! ## Depth lemmas -/

theorem bfs_depth_congr {st st' : GraphStore} {k : String}
    (hc : Dict.contains st'.nodes k = Dict.contains st.nodes k)
    (ha : (fun n => Dict.getD st'.node_edges n []) =
      (fun n => Dict.getD st.node_edges n []))
    (he : (fun eid => Dict.find? st'.edges eid) =
      (fun eid => Dict.find? st.edges eid))
    (hf : total_adj st' = total_adj st) :
    bfs_depth st' k = bfs_depth st k := by
  unfold bfs_depth
  rw [hc, ha, he, hf]

theorem getD_insert_nil_ext {m : Dict (List String)} {k : String}
    (h : Dict.contains m k = false) :
    ∀ x, Dict.getD (Dict.insert m k []) x [] = Dict.getD m x [] := by
  intro x
  by_cases hx : k = x
  · subst hx
    rw [Dict.getD_insert_self]
    unfold Dict.contains at h
    unfold Dict.getD
    rcases hf : Dict.find? m k with _ | v
    · rfl
    · rw [hf] at h
      cases h
  · exact Dict.getD_insert_ne _ _ _ hx _

theorem foldl_max_le_init (f : String → Nat) :
    ∀ (l : List String) (init : Nat),
      init ≤ l.foldl (fun md s => max md (f s)) init := by
  intro l
  induction l with
  | nil => intro init; exact le_refl _
  | cons a t ih =>
    intro init
    rw [List.foldl_cons]
    exact le_trans (le_max_left _ _) (ih _)

theorem foldl_max_mem (f : String → Nat) :
    ∀ (l : List String) (init : Nat) {x : String}, x ∈ l →
      f x ≤ l.foldl (fun md s => max md (f s)) init := by
  intro l
  induction l with
  | nil => intro init x hx; cases hx
  | cons a t ih =>
    intro init x hx
    rw [List.foldl_cons]
    rcases List.mem_cons.mp hx with h1 | h1
    · subst h1
      exact le_trans (le_max_right _ _) (foldl_max_le_init f t _)
    · exact ih _ h1

theorem bfs_le_calc {st : GraphStore} {k : String} {n : Node}
    (hmem : (k, n) ∈ st.nodes) (hseed : n.is_seed = true) :
    bfs_depth st k ≤ calculate_max_depth st := by
  unfold calculate_max_depth
  have hne : st.nodes.isEmpty = false := by
    rcases hl : st.nodes with _ | ⟨q, t⟩
    · rw [hl] at hmem
      cases hmem
    · rfl
  have hkmem : k ∈ (st.nodes.filter (fun p => p.2.is_seed)).map Prod.fst :=
    List.mem_map_of_mem Prod.fst (List.mem_filter.mpr ⟨hmem, by rw [hseed]⟩)
  have hnonempty : ((st.nodes.filter (fun p => p.2.is_seed)).map Prod.fst).isEmpty = false := by
    cases hl : (st.nodes.filter (fun p => p.2.is_seed)).map Prod.fst with
    | nil =>
      rw [hl] at hkmem
      cases hkmem
    | cons a t => rfl
  simp only [hne, hnonempty, Bool.false_eq_true, if_false]
  exact foldl_max_mem _ _ _ hkmem


/-! ## The seed-structure invariant over StepCore sequences -/

theorem insert_layout (k1 k2 k3 : String) (v1 v2 v3 : Node) (tail : Dict Node)
    (id : String) (n : Node) :
    ∃ w1 w2 w3 tail2,
      Dict.insert ((k1, v1) :: (k2, v2) :: (k3, v3) :: tail) id n =
        (k1, w1) :: (k2, w2) :: (k3, w3) :: tail2 ∧
      ∀ p ∈ tail2, p ∈ tail ∨ (p = (id, n) ∧ id ≠ k1 ∧ id ≠ k2 ∧ id ≠ k3) := by
  by_cases h1 : k1 = id
  · exact ⟨n, v2, v3, tail, by simp [Dict.insert, h1], fun p hp => Or.inl hp⟩
  · by_cases h2 : k2 = id
    · exact ⟨v1, n, v3, tail, by simp [Dict.insert, h1, h2], fun p hp => Or.inl hp⟩
    · by_cases h3 : k3 = id
      · exact ⟨v1, v2, n, tail, by simp [Dict.insert, h1, h2, h3], fun p hp => Or.inl hp⟩
      · refine ⟨v1, v2, v3, Dict.insert tail id n, by simp [Dict.insert, h1, h2, h3], ?_⟩
        intro p hp
        rcases Dict.mem_insert hp with hq | hq
        · exact Or.inl hq
        · exact Or.inr ⟨hq, fun he => h1 he.symm, fun he => h2 he.symm, fun he => h3 he.symm⟩

theorem CoreWF_init : CoreWF GraphStore.init := by
  refine ⟨?_, by decide, by decide⟩
  exact ⟨_, _, _, [], rfl, fun p hp => absurd hp (List.not_mem_nil p)⟩

theorem CoreWF_add_node {st : GraphStore} (hc : CoreWF st) {n : Node}
    (hseed : n.is_seed = false) (hok : (add_node st n).2 = .ok ()) :
    CoreWF (add_node st n).1 := by
  by_cases hg : MAX_NODES ≤ st.nodes.length ∧ ¬ Dict.contains st.nodes n.node_id
  · rw [add_node_fail hg] at hok
    cases hok
  · rw [add_node_ok hg]
    show CoreWF
      ({ st with
         nodes := Dict.insert st.nodes n.node_id n,
         node_edges :=
           if Dict.contains st.node_edges n.node_id then st.node_edges
           else Dict.insert st.node_edges n.node_id [] })
    have hdepth_eq : ∀ k, Dict.contains st.nodes k = true →
        bfs_depth ({ st with
          nodes := Dict.insert st.nodes n.node_id n,
          node_edges :=
            if Dict.contains st.node_edges n.node_id then st.node_edges
            else Dict.insert st.node_edges n.node_id [] }) k = bfs_depth st k := by
      intro k hk
      apply bfs_depth_congr
      · show Dict.contains (Dict.insert st.nodes n.node_id n) k = Dict.contains st.nodes k
        rw [hk]
        exact Dict.contains_insert_monotone hk _ _
      · show (fun x => Dict.getD (if Dict.contains st.node_edges n.node_id then st.node_edges
            else Dict.insert st.node_edges n.node_id []) x []) =
          (fun x => Dict.getD st.node_edges x [])
        rcases hcNE : Dict.contains st.node_edges n.node_id with _ | _
        · rw [if_neg (by decide : ¬ (false = true))]
          funext x
          exact getD_insert_nil_ext hcNE x
        · rw [if_pos rfl]
      · rfl
      · show total_adj ({ st with
            nodes := Dict.insert st.nodes n.node_id n,
            node_edges :=
              if Dict.contains st.node_edges n.node_id then st.node_edges
              else Dict.insert st.node_edges n.node_id [] }) = total_adj st
        rcases hcNE : Dict.contains st.node_edges n.node_id with _ | _
        · show total_adj ({ st with
              nodes := Dict.insert st.nodes n.node_id n,
              node_edges := Dict.insert st.node_edges n.node_id [] }) = total_adj st
          unfold total_adj
          rw [show ({ st with
              nodes := Dict.insert st.nodes n.node_id n,
              node_edges := Dict.insert st.node_edges n.node_id [] } :
              GraphStore).node_edges = Dict.insert st.node_edges n.node_id [] from rfl]
          rw [Dict.insert_append_of_not_contains hcNE]
          simp
        · rfl
    refine ⟨?_, ?_, ?_⟩
    · rcases hc.seeds_layout with ⟨v1, v2, v3, tail, hnodes, htail⟩
      show ∃ w1 w2 w3 tail2, Dict.insert st.nodes n.node_id n = _ ∧ _
      rw [hnodes]
      rcases insert_layout _ _ _ v1 v2 v3 tail n.node_id n with
        ⟨w1, w2, w3, tail2, heq, htail2⟩
      refine ⟨w1, w2, w3, tail2, heq, ?_⟩
      intro p hp
      rcases htail2 p hp with h1 | ⟨h1, -⟩
      · exact htail p h1
      · rw [h1]
        exact hseed
    · intro p hp hps
      rcases Dict.mem_insert hp with h1 | h1
      · exact hc.seeds_shape p h1 hps
      · rw [h1] at hps
        exact absurd hps (by rw [hseed]; decide)
    · intro p hp hps
      rcases Dict.mem_insert hp with h1 | h1
      · have hck : Dict.contains st.nodes p.1 = true := by
          rw [Dict.contains_iff_mem_keys]
          exact List.mem_map_of_mem Prod.fst h1
        rw [hdepth_eq p.1 hck]
        exact hc.depth_ok p h1 hps
      · rw [h1] at hps
        exact absurd hps (by rw [hseed]; decide)

theorem CoreWF_insert_existing {st : GraphStore} (hc : CoreWF st) {nid : String}
    {n upd : Node} (hf : Dict.find? st.nodes nid = some n)
    (hs : upd.is_seed = n.is_seed) (hl : upd.label = n.label)
    (ht : upd.entity_type = n.entity_type) :
    CoreWF { st with nodes := Dict.insert st.nodes nid upd } := by
  have hck : Dict.contains st.nodes nid = true := by
    unfold Dict.contains
    rw [hf]
    rfl
  have hdepth_eq : ∀ k, Dict.contains st.nodes k = true →
      bfs_depth ({ st with nodes := Dict.insert st.nodes nid upd }) k = bfs_depth st k := by
    intro k hk
    apply bfs_depth_congr
    · show Dict.contains (Dict.insert st.nodes nid upd) k = Dict.contains st.nodes k
      rw [hk]
      exact Dict.contains_insert_monotone hk _ _
    · rfl
    · rfl
    · rfl
  have hmemn := Dict.mem_of_find? hf
  refine ⟨?_, ?_, ?_⟩
  · rcases hc.seeds_layout with ⟨v1, v2, v3, tail, hnodes, htail⟩
    show ∃ w1 w2 w3 tail2, Dict.insert st.nodes nid upd = _ ∧ _
    rw [hnodes]
    rcases insert_layout _ _ _ v1 v2 v3 tail nid upd with
      ⟨w1, w2, w3, tail2, heq, htail2⟩
    refine ⟨w1, w2, w3, tail2, heq, ?_⟩
    intro p hp
    rcases htail2 p hp with h1 | ⟨h1, hk1, hk2, hk3⟩
    · exact htail p h1
    · rw [h1]
      show upd.is_seed = false
      rw [hs]
      have hmem2 : (nid, n) ∈ tail := by
        rw [hnodes] at hmemn
        rcases List.mem_cons.mp hmemn with h2 | h2
        · exact absurd (congrArg Prod.fst h2) hk1
        · rcases List.mem_cons.mp h2 with h3 | h3
          · exact absurd (congrArg Prod.fst h3) hk2
          · rcases List.mem_cons.mp h3 with h4 | h4
            · exact absurd (congrArg Prod.fst h4) hk3
            · exact h4
      exact htail (nid, n) hmem2
  · intro p hp hps
    rcases Dict.mem_insert hp with h1 | h1
    · exact hc.seeds_shape p h1 hps
    · rw [h1] at hps ⊢
      rw [hs] at hps
      rcases hc.seeds_shape (nid, n) hmemn hps with ⟨q, hq, hq1, hq2, hq3⟩
      exact ⟨q, hq, hq1, by rw [hl]; exact hq2, by rw [ht]; exact hq3⟩
  · intro p hp hps
    rcases Dict.mem_insert hp with h1 | h1
    · have hck2 : Dict.contains st.nodes p.1 = true := by
        rw [Dict.contains_iff_mem_keys]
        exact List.mem_map_of_mem Prod.fst h1
      rw [hdepth_eq p.1 hck2]
      exact hc.depth_ok p h1 hps
    · rw [h1] at hps ⊢
      rw [hs] at hps
      rw [hdepth_eq nid hck]
      exact hc.depth_ok (nid, n) hmemn hps

theorem CoreWF_validate_umls {st : GraphStore} (hc : CoreWF st) (nid cui : String) :
    CoreWF (validate_with_umls st nid cui).1 := by
  unfold validate_with_umls
  rcases hf : Dict.find? st.nodes nid with _ | n
  · exact hc
  · exact CoreWF_insert_existing hc hf rfl rfl rfl

theorem CoreWF_add_edge {st : GraphStore} (hc : CoreWF st) {e : Edge} {eid : String}
    (hok : (add_edge st e).2 = .ok eid) : CoreWF (add_edge st e).1 := by
  obtain ⟨-, -, -, hv, hfst⟩ := add_edge_counter_of_ok hok
  rw [hfst]
  have hcalc : calculate_max_depth (tentative_insert st e) ≤ MAX_DEPTH :=
    (validate_constraints_ok_iff.mp hv).2
  have hnodes : (tentative_insert st e).nodes = st.nodes := rfl
  refine ⟨?_, ?_, ?_⟩
  · rcases hc.seeds_layout with ⟨v1, v2, v3, tail, hn, htail⟩
    exact ⟨v1, v2, v3, tail, by rw [hnodes, hn], htail⟩
  · intro p hp hps
    rw [hnodes] at hp
    exact hc.seeds_shape p hp hps
  · intro p hp hps
    have hmem : (p.1, p.2) ∈ (tentative_insert st e).nodes := hp
    exact le_trans (bfs_le_calc hmem hps) hcalc

theorem CoreWF_step {st st' : GraphStore} (hc : CoreWF st) (h : StepCore st st') :
    CoreWF st' := by
  cases h with
  | addNode n hn hseed hok => exact CoreWF_add_node hc hseed hok
  | addEdge e he eid hok => exact CoreWF_add_edge hc hok
  | validateUmls nid cui hok => exact CoreWF_validate_umls hc nid cui

theorem CoreWF_reachable {st : GraphStore} (h : ReachableCore st) : CoreWF st := by
  induction h with
  | init => exact CoreWF_init
  | step _ hstep ih => exact CoreWF_step ih hstep

/-! ## Claim C2 (amended) -/

/-- Claim C2 (amended): on every store reachable by successful calls that
never submit a seed-flagged node to `add_node`, every seed node's BFS depth
along outgoing edges is at most `MAX_DEPTH`; moreover the concrete 3-hop
chain from the seed `inflammation` is rejected and the statistics after the
rejection equal those before the attempt. -/
theorem C2_depth_invariant (st : GraphStore) (h : ReachableCore st) :
    (∀ p ∈ st.nodes, p.2.is_seed = true → bfs_depth st p.1 ≤ MAX_DEPTH) ∧
    (add_edge chainStore (mkEdgeR "b" "c")).2 =
      .error (.constraintViolation "Graph exceeds maximum depth constraint: 3 > 2") ∧
    get_statistics (add_edge chainStore (mkEdgeR "b" "c")).1 = get_statistics chainStore :=
  ⟨(CoreWF_reachable h).depth_ok, by decide, by decide⟩

/-- Witness for C2 (amended), at the freshly initialized store. -/
theorem C2_depth_witness :
    (∀ p ∈ GraphStore.init.nodes, p.2.is_seed = true →
      bfs_depth GraphStore.init p.1 ≤ MAX_DEPTH) ∧
    (add_edge chainStore (mkEdgeR "b" "c")).2 =
      .error (.constraintViolation "Graph exceeds maximum depth constraint: 3 > 2") ∧
    get_statistics (add_edge chainStore (mkEdgeR "b" "c")).1 = get_statistics chainStore :=
  C2_depth_invariant GraphStore.init ReachableCore.init


/-! ## Claim C7 (amended): import completion -/

theorem from_dict_edges_ok (l : List (String × EdgeData)) :
    ∀ st : GraphStore, (∀ p ∈ l, EdgeDataOK p.2) → (from_dict_edges st l).2 = .ok () := by
  induction l with
  | nil =>
    intro st _
    rfl
  | cons q rest ih =>
    obtain ⟨eid, ed⟩ := q
    intro st hl
    have hok : EdgeDataOK ed := hl (eid, ed) (List.mem_cons_self _ _)
    obtain ⟨e, he⟩ := (Edge_make_ok_iff ed.source_node_id ed.target_node_id
      ed.relationship_type ed.evidence ed.confidence).mpr hok
    simp only [from_dict_edges, he]
    exact ih _ (fun p hp => hl p (List.mem_cons_of_mem _ hp))

theorem from_dict_nodes_ok {S : List String} (hS : S.Nodup) (hSle : S.length ≤ MAX_NODES)
    (l : List (String × Node)) :
    ∀ st : GraphStore,
      (Dict.keys st.nodes).Nodup →
      (∀ k ∈ Dict.keys st.nodes, k ∈ S) →
      (∀ p ∈ l, p.2.is_seed = false → NodeOK p.2 ∧ p.2.node_id ∈ S) →
      (from_dict_nodes st l).2 = .ok () := by
  induction l with
  | nil =>
    intro st _ _ _
    rfl
  | cons q rest ih =>
    obtain ⟨nid, nd⟩ := q
    intro st hnodup hsub hl
    have hkl : (Dict.keys st.nodes).length = st.nodes.length := by
      unfold Dict.keys
      exact List.length_map _ _
    by_cases hseed : nd.is_seed = false
    · obtain ⟨hok, hmemS⟩ := hl (nid, nd) (List.mem_cons_self _ _) hseed
      have hmk := Node_make_ok hok
      have hguard : ¬ (MAX_NODES ≤ st.nodes.length ∧
          ¬ Dict.contains st.nodes nd.node_id) := by
        rintro ⟨hlen, hcont⟩
        have hcont2 : Dict.contains st.nodes nd.node_id = false := by
          rcases h2 : Dict.contains st.nodes nd.node_id with _ | _
          · rfl
          · exact absurd h2 hcont
        have hfresh : nd.node_id ∉ Dict.keys st.nodes :=
          Dict.contains_eq_false_iff.mp hcont2
        have hnodup2 : (Dict.keys st.nodes ++ [nd.node_id]).Nodup := by
          simp [List.nodup_append, hnodup, hfresh]
        have hsub2 : (Dict.keys st.nodes ++ [nd.node_id]) ⊆ S := by
          intro x hx
          rcases List.mem_append.mp hx with h1 | h1
          · exact hsub x h1
          · rw [List.mem_singleton.mp h1]
            exact hmemS
        have hle2 := (List.subperm_of_subset hnodup2 hsub2).length_le
        rw [List.length_append] at hle2
        simp only [List.length_singleton] at hle2
        omega
      simp only [from_dict_nodes, if_pos hseed, hmk, add_node_ok hguard]
      apply ih
      · exact Dict.nodup_keys_insert hnodup _ _
      · intro k hk
        show k ∈ S
        rcases hc : Dict.contains st.nodes nd.node_id with _ | _
        · rw [Dict.keys_insert_of_not_contains hc] at hk
          rcases List.mem_append.mp hk with h1 | h1
          · exact hsub k h1
          · rw [List.mem_singleton.mp h1]
            exact hmemS
        · rw [Dict.keys_insert_of_contains hc] at hk
          exact hsub k hk
      · intro p hp hps
        exact hl p (List.mem_cons_of_mem _ hp) hps
    · simp only [from_dict_nodes, if_neg hseed]
      rcases hf : Dict.find? st.nodes nid with _ | n
      · exact ih st hnodup hsub (fun p hp hps => hl p (List.mem_cons_of_mem _ hp) hps)
      · have hck : Dict.contains st.nodes nid = true := by
          unfold Dict.contains
          rw [hf]
          rfl
        apply ih
        · show (Dict.keys (Dict.insert st.nodes nid _)).Nodup
          rw [Dict.keys_insert_of_contains hck]
          exact hnodup
        · intro k hk
          rw [Dict.keys_insert_of_contains hck] at hk
          exact hsub k hk
        · intro p hp hps
          exact hl p (List.mem_cons_of_mem _ hp) hps

/-- Claim C7 (amended): `from_dict` completes without raising whenever the
snapshot's non-seed node records pass node validation, its distinct node-id
count fits within `MAX_NODES`, and its edge records pass edge validation —
even when the snapshot's edges violate the max-depth invariant, as the
concrete `deepSnapshot` (a 3-hop chain from the seed `inflammation`)
demonstrates: its import succeeds and leaves a store whose computed depth
exceeds `MAX_DEPTH`. -/
theorem C7_import_completes (st : GraphStore) (d : Snapshot)
    (hn : ∀ p ∈ d.nodes, p.2.is_seed = false → NodeOK p.2)
    (hlen : (snapshotNodeIds d).length ≤ MAX_NODES)
    (he : ∀ p ∈ d.edges, EdgeDataOK p.2) :
    (from_dict st d).2 = .ok () ∧
    (from_dict GraphStore.init deepSnapshot).2 = .ok () ∧
    MAX_DEPTH < calculate_max_depth (from_dict GraphStore.init deepSnapshot).1 := by
  refine ⟨?_, by decide, by decide⟩
  have hnok : (from_dict_nodes (init_seed_entities ⟨[], [], [], 0⟩) d.nodes).2 = .ok () := by
    apply from_dict_nodes_ok (List.nodup_dedup _) hlen
    · decide
    · intro k hk
      have hkeys : Dict.keys ((init_seed_entities ⟨[], [], [], 0⟩) : GraphStore).nodes =
          Dict.keys SEED_ENTITIES := by decide
      rw [hkeys] at hk
      rw [List.mem_dedup]
      exact List.mem_append_left _ hk
    · intro p hp hps
      refine ⟨hn p hp hps, ?_⟩
      rw [List.mem_dedup]
      apply List.mem_append_right
      apply List.mem_map_of_mem
      rw [List.mem_filter]
      exact ⟨hp, by simp [hps]⟩
  simp only [from_dict]
  rcases hres : from_dict_nodes (init_seed_entities ⟨[], [], [], 0⟩) d.nodes with ⟨st1, r⟩
  rw [hres] at hnok
  rcases r with e | u
  · cases hnok
  · show (from_dict_edges st1 d.edges).2 = .ok ()
    exact from_dict_edges_ok d.edges st1 he

/-- Witness for C7 (amended), at `deepSnapshot`. -/
theorem C7_import_witness :
    (from_dict GraphStore.init deepSnapshot).2 = .ok () ∧
    (from_dict GraphStore.init deepSnapshot).2 = .ok () ∧
    MAX_DEPTH < calculate_max_depth (from_dict GraphStore.init deepSnapshot).1 :=
  C7_import_completes GraphStore.init deepSnapshot (by decide) (by decide) (by decide)


/-! ## Claim C4 (amended): the export/import round trip -/

theorem StepCore_toNI {st st' : GraphStore} (h : StepCore st st') : StepNI st st' := by
  cases h with
  | addNode n hn hseed hok => exact StepNI.addNode st n hn
  | addEdge e he eid hok => exact StepNI.addEdge st e he
  | validateUmls nid cui hok => exact StepNI.validateUmls st nid cui

theorem ReachableCore_toNI {st : GraphStore} (h : ReachableCore st) : ReachableNI st := by
  induction h with
  | init => exact ReachableNI.init
  | step _ hstep ih => exact ReachableNI.step ih (StepCore_toNI hstep)

theorem node_eq_of_fields {v : Node} {i l t : String} (h1 : v.node_id = i)
    (h2 : v.label = l) (h3 : v.entity_type = t) (h4 : v.is_seed = true) :
    v = ⟨i, l, t, v.synonyms, v.ontology_ref, true⟩ := by
  cases v
  subst h1 h2 h3 h4
  rfl

theorem seed_shape_at {st : GraphStore} (hc : CoreWF st) {k : String} {v : Node}
    (hmem : (k, v) ∈ st.nodes) (hs : v.is_seed = true) :
    (k = "intracranial_aneurysm_rupture" →
      v.label = "Intracranial Aneurysm Rupture" ∧ v.entity_type = "Disease") ∧
    (k = "inflammation" →
      v.label = "Inflammation" ∧ v.entity_type = "Biological Process") ∧
    (k = "hemodynamics" →
      v.label = "Hemodynamics" ∧ v.entity_type = "Biomechanical") := by
  rcases hc.seeds_shape (k, v) hmem hs with ⟨q, hq, hq1, hq2, hq3⟩
  simp only [SEED_ENTITIES, List.mem_cons, List.not_mem_nil, or_false] at hq
  rcases hq with hq | hq | hq <;> subst hq <;>
    refine ⟨?_, ?_, ?_⟩ <;> intro hk <;>
    first
      | exact ⟨hq2, hq3⟩
      | (rw [hk] at hq1; simp at hq1)

theorem from_dict_nodes_step_existing {st0 : GraphStore} {k : String} {v : Node}
    {rest : List (String × Node)}
    (hkc : v.node_id = k) (hok : NodeOK v)
    (hmerge : v.is_seed = true → ∃ n, Dict.find? st0.nodes k = some n ∧
      ({ n with ontology_ref := v.ontology_ref, synonyms := v.synonyms } : Node) = v)
    (hcont : Dict.contains st0.nodes k = true)
    (hcontNE : Dict.contains st0.node_edges k = true) :
    from_dict_nodes st0 ((k, v) :: rest) =
      from_dict_nodes { st0 with nodes := Dict.insert st0.nodes k v } rest := by
  by_cases hseed : v.is_seed = false
  · have hmk := Node_make_ok hok
    have hguard : ¬ (MAX_NODES ≤ st0.nodes.length ∧
        ¬ Dict.contains st0.nodes v.node_id) := by
      rw [hkc]
      rintro ⟨-, hcn⟩
      exact hcn hcont
    simp only [from_dict_nodes, if_pos hseed, hmk, add_node_ok hguard]
    rw [hkc]
    rw [if_pos hcontNE]
  · have hseedT : v.is_seed = true := by
      rcases hb : v.is_seed with _ | _
      · exact absurd hb hseed
      · rfl
    obtain ⟨n, hfind, hupd⟩ := hmerge hseedT
    simp only [from_dict_nodes, if_neg hseed, hfind]
    rw [hupd]

theorem from_dict_nodes_tail (l : List (String × Node)) :
    ∀ st0 : GraphStore,
      (∀ p ∈ l, p.2.is_seed = false ∧ NodeOK p.2 ∧ p.2.node_id = p.1) →
      (Dict.keys st0.nodes ++ Dict.keys l).Nodup →
      Dict.keys st0.node_edges = Dict.keys st0.nodes →
      st0.nodes.length + l.length ≤ MAX_NODES →
      from_dict_nodes st0 l =
        ((⟨st0.nodes ++ l, st0.edges, st0.node_edges ++ l.map (fun p => (p.1, [])),
          st0.edge_counter⟩ : GraphStore), .ok ()) := by
  induction l with
  | nil =>
    intro st0 _ _ _ _
    simp [from_dict_nodes]
  | cons q rest ih =>
    obtain ⟨k, v⟩ := q
    intro st0 hprops hnodup hkeq hlen
    obtain ⟨hseed, hok, hkc⟩ := hprops (k, v) (List.mem_cons_self _ _)
    have hfreshN : Dict.contains st0.nodes k = false := by
      rw [Dict.contains_eq_false_iff]
      intro hmem
      have hdisj := (List.nodup_append.mp hnodup).2.2
      exact hdisj hmem (List.mem_cons_self _ _)
    have hfreshNE : Dict.contains st0.node_edges k = false := by
      rw [Dict.contains_eq_false_iff, hkeq]
      exact Dict.contains_eq_false_iff.mp hfreshN
    have hmk := Node_make_ok hok
    have hguard : ¬ (MAX_NODES ≤ st0.nodes.length ∧
        ¬ Dict.contains st0.nodes v.node_id) := by
      rintro ⟨h1, -⟩
      rw [List.length_cons] at hlen
      omega
    simp only [from_dict_nodes, if_pos hseed, hmk, add_node_ok hguard]
    have hkc2 : v.node_id = k := hkc
    rw [hkc2]
    rw [if_neg (fun hcn => by rw [hfreshNE] at hcn; cases hcn)]
    rw [Dict.insert_append_of_not_contains hfreshN,
      Dict.insert_append_of_not_contains hfreshNE]
    have hka : Dict.keys (st0.nodes ++ [(k, v)]) = Dict.keys st0.nodes ++ [k] := by
      unfold Dict.keys
      rw [List.map_append]
      rfl
    have hkaNE : Dict.keys (st0.node_edges ++ [(k, [])]) =
        Dict.keys st0.node_edges ++ [k] := by
      unfold Dict.keys
      rw [List.map_append]
      rfl
    rw [ih (⟨st0.nodes ++ [(k, v)], st0.edges, st0.node_edges ++ [(k, [])],
          st0.edge_counter⟩ : GraphStore)
        (fun p hp => hprops p (List.mem_cons_of_mem _ hp))
        (by rw [hka, List.append_assoc]; exact hnodup)
        (by rw [hka, hkaNE, hkeq])
        (by simp at hlen ⊢; omega)]
    simp [List.append_assoc]

theorem from_dict_nodes_roundtrip {st : GraphStore} (hwf : WF st) (hc : CoreWF st) :
    from_dict_nodes (init_seed_entities ⟨[], [], [], 0⟩) st.nodes =
      ({ nodes := st.nodes, edges := [],
         node_edges := (Dict.keys st.nodes).map (fun k => (k, incident k ([] : Dict Edge))),
         edge_counter := 0 }, .ok ()) := by
  rcases hc.seeds_layout with ⟨v1, v2, v3, tail, hlay, htail⟩
  have hm1 : ("intracranial_aneurysm_rupture", v1) ∈ st.nodes := by
    rw [hlay]
    exact List.mem_cons_self _ _
  have hm2 : ("inflammation", v2) ∈ st.nodes := by
    rw [hlay]
    exact List.mem_cons_of_mem _ (List.mem_cons_self _ _)
  have hm3 : ("hemodynamics", v3) ∈ st.nodes := by
    rw [hlay]
    exact List.mem_cons_of_mem _ (List.mem_cons_of_mem _ (List.mem_cons_self _ _))
  have hk1 : v1.node_id = "intracranial_aneurysm_rupture" := hwf.key_coh _ hm1
  have hk2 : v2.node_id = "inflammation" := hwf.key_coh _ hm2
  have hk3 : v3.node_id = "hemodynamics" := hwf.key_coh _ hm3
  have hmerge1 : v1.is_seed = true → ∃ n,
      Dict.find? ((init_seed_entities ⟨[], [], [], 0⟩) : GraphStore).nodes
        "intracranial_aneurysm_rupture" = some n ∧
      ({ n with ontology_ref := v1.ontology_ref, synonyms := v1.synonyms } : Node) = v1 := by
    intro hs
    refine ⟨⟨"intracranial_aneurysm_rupture", "Intracranial Aneurysm Rupture", "Disease",
      ["Brain Aneurysm Rupture", "Cerebral Aneurysm Rupture", "Intracranial Aneurysm"],
      none, true⟩, rfl, ?_⟩
    obtain ⟨hl, ht⟩ := (seed_shape_at hc hm1 hs).1 rfl
    exact (node_eq_of_fields hk1 hl ht hs).symm
  have hmerge2 : v2.is_seed = true → ∃ n,
      Dict.find? [("intracranial_aneurysm_rupture", v1),
        ("inflammation", (⟨"inflammation", "Inflammation", "Biological Process",
          ["Inflammatory Response", "Inflammatory Process"], none, true⟩ : Node)),
        ("hemodynamics", (⟨"hemodynamics", "Hemodynamics", "Biomechanical",
          ["Blood Flow Dynamics", "Hemodynamic Forces", "Vascular Hemodynamics"],
          none, true⟩ : Node))]
        "inflammation" = some n ∧
      ({ n with ontology_ref := v2.ontology_ref, synonyms := v2.synonyms } : Node) = v2 := by
    intro hs
    refine ⟨⟨"inflammation", "Inflammation", "Biological Process",
      ["Inflammatory Response", "Inflammatory Process"], none, true⟩, rfl, ?_⟩
    obtain ⟨hl, ht⟩ := (seed_shape_at hc hm2 hs).2.1 rfl
    exact (node_eq_of_fields hk2 hl ht hs).symm
  have hmerge3 : v3.is_seed = true → ∃ n,
      Dict.find? [("intracranial_aneurysm_rupture", v1), ("inflammation", v2),
        ("hemodynamics", (⟨"hemodynamics", "Hemodynamics", "Biomechanical",
          ["Blood Flow Dynamics", "Hemodynamic Forces", "Vascular Hemodynamics"],
          none, true⟩ : Node))]
        "hemodynamics" = some n ∧
      ({ n with ontology_ref := v3.ontology_ref, synonyms := v3.synonyms } : Node) = v3 := by
    intro hs
    refine ⟨⟨"hemodynamics", "Hemodynamics", "Biomechanical",
      ["Blood Flow Dynamics", "Hemodynamic Forces", "Vascular Hemodynamics"],
      none, true⟩, rfl, ?_⟩
    obtain ⟨hl, ht⟩ := (seed_shape_at hc hm3 hs).2.2 rfl
    exact (node_eq_of_fields hk3 hl ht hs).symm
  have hnd := hwf.nodes_nodup
  rw [hlay] at hnd
  have hlen := hwf.nodes_le
  rw [hlay] at hlen
  have htprops : ∀ p ∈ tail, p.2.is_seed = false ∧ NodeOK p.2 ∧ p.2.node_id = p.1 := by
    intro p hp
    have hpm : p ∈ st.nodes := by
      rw [hlay]
      exact List.mem_cons_of_mem _ (List.mem_cons_of_mem _ (List.mem_cons_of_mem _ hp))
    exact ⟨htail p hp, hwf.nodes_ok p hpm, hwf.key_coh p hpm⟩
  have htm : tail.map (fun p => (p.1, ([] : List String))) =
      (Dict.keys tail).map (fun k => (k, incident k ([] : Dict Edge))) := by
    unfold Dict.keys
    rw [List.map_map]
    rfl
  rw [hlay]
  refine Eq.trans
    (from_dict_nodes_step_existing hk1 (hwf.nodes_ok _ hm1) hmerge1 rfl rfl) ?_
  refine Eq.trans
    (from_dict_nodes_step_existing hk2 (hwf.nodes_ok _ hm2) hmerge2 rfl rfl) ?_
  refine Eq.trans
    (from_dict_nodes_step_existing hk3 (hwf.nodes_ok _ hm3) hmerge3 rfl rfl) ?_
  refine Eq.trans
    (from_dict_nodes_tail tail
      (⟨[("intracranial_aneurysm_rupture", v1), ("inflammation", v2), ("hemodynamics", v3)],
       [],
       [("intracranial_aneurysm_rupture", []), ("inflammation", []), ("hemodynamics", [])],
       0⟩ : GraphStore)
      htprops hnd rfl
      (by simp only [List.length_cons] at hlen ⊢; simp; omega)) ?_
  show ((⟨("intracranial_aneurysm_rupture", v1) :: ("inflammation", v2) ::
      ("hemodynamics", v3) :: tail, [],
      ("intracranial_aneurysm_rupture", []) :: ("inflammation", []) :: ("hemodynamics", []) ::
        tail.map (fun p => (p.1, ([] : List String))), 0⟩ : GraphStore), Except.ok ()) = _
  rw [htm]
  rfl

theorem from_dict_edges_replay (nodes : Dict Node) (c : Nat)
    (hnd : (Dict.keys nodes).Nodup) :
    ∀ (l : Dict Edge), ∀ (done : Dict Edge), ∀ (ne : Dict (List String)),
      ne = (Dict.keys nodes).map (fun k => (k, incident k done)) →
      (Dict.keys done ++ Dict.keys l).Nodup →
      (∀ p ∈ l, EdgeOK p.2) →
      (∀ p ∈ l, p.2.source_node_id ∈ Dict.keys nodes ∧
        p.2.target_node_id ∈ Dict.keys nodes) →
      from_dict_edges ⟨nodes, done, ne, c⟩ (l.map (fun p => (p.1, Edge.to_data p.2))) =
        (⟨nodes, done ++ l,
          (Dict.keys nodes).map (fun k => (k, incident k (done ++ l))), c⟩, .ok ()) := by
  intro l
  induction l with
  | nil =>
    intro done ne hne hnodup _ _
    subst hne
    simp [from_dict_edges]
  | cons q rest ih =>
    obtain ⟨eid, e⟩ := q
    intro done ne hne hnodup hoks hends
    subst hne
    have hok : EdgeOK e := hoks (eid, e) (List.mem_cons_self _ _)
    obtain ⟨hsrc, htgt⟩ := hends (eid, e) (List.mem_cons_self _ _)
    have hst : e.source_node_id ≠ e.target_node_id := hok.2.2.2.1
    have heidF : Dict.contains done eid = false := by
      rw [Dict.contains_eq_false_iff]
      intro hmem
      have hdisj := (List.nodup_append.mp hnodup).2.2
      exact hdisj hmem (List.mem_cons_self _ _)
    have hmkE : Edge.make (Edge.to_data e).source_node_id (Edge.to_data e).target_node_id
        (Edge.to_data e).relationship_type (Edge.to_data e).evidence
        (Edge.to_data e).confidence = .ok e := Edge_make_ok hok
    simp only [List.map_cons, from_dict_edges, hmkE]
    have hsrcC : Dict.contains
        ((Dict.keys nodes).map (fun k => (k, incident k done))) e.source_node_id = true := by
      rw [Dict.contains_iff_mem_keys, Dict.keys_canon]
      exact hsrc
    have htgtC : Dict.contains
        ((Dict.keys nodes).map (fun k => (k, incident k done))) e.target_node_id = true := by
      rw [Dict.contains_iff_mem_keys, Dict.keys_canon]
      exact htgt
    rw [if_pos hsrcC, if_pos htgtC]
    rw [Dict.getD_canon _ _ hsrc, Dict.insert_canon _ _ hnd hsrc]
    rw [Dict.getD_canon _ _ htgt, Dict.insert_canon _ _ hnd htgt]
    rw [Dict.insert_append_of_not_contains heidF]
    have hmapeq : (Dict.keys nodes).map (fun x => (x,
        if x = e.target_node_id then
          (if e.target_node_id = e.source_node_id then
            incident e.source_node_id done ++ [eid] else incident e.target_node_id done) ++ [eid]
        else if x = e.source_node_id then incident e.source_node_id done ++ [eid]
        else incident x done)) =
        (Dict.keys nodes).map (fun x => (x, incident x (done ++ [(eid, e)]))) := by
      apply List.map_congr_left
      intro x hx
      rw [incident_append]
      by_cases hxt : x = e.target_node_id
      · rw [if_pos hxt, if_neg (fun hts => hst hts.symm),
          if_pos (Or.inr hxt.symm), hxt]
      · rw [if_neg hxt]
        by_cases hxs : x = e.source_node_id
        · rw [if_pos hxs, if_pos (Or.inl hxs.symm), hxs]
        · rw [if_neg hxs, if_neg (fun hor => by
            rcases hor with h1 | h1
            · exact hxs h1.symm
            · exact hxt h1.symm), List.append_nil]
    rw [hmapeq]
    rw [ih (done ++ [(eid, e)])
        ((Dict.keys nodes).map (fun k => (k, incident k (done ++ [(eid, e)])))) rfl
        (by
          have hka : Dict.keys (done ++ [(eid, e)]) = Dict.keys done ++ [eid] := by
            unfold Dict.keys
            rw [List.map_append]
            rfl
          rw [hka, List.append_assoc]
          exact hnodup)
        (fun p hp => hoks p (List.mem_cons_of_mem _ hp))
        (fun p hp => hends p (List.mem_cons_of_mem _ hp))]
    simp [List.append_assoc]

theorem get_statistics_counter_irrel (n : Dict Node) (e : Dict Edge)
    (ne : Dict (List String)) (c c2 : Nat) :
    get_statistics ⟨n, e, ne, c⟩ = get_statistics ⟨n, e, ne, c2⟩ := rfl

theorem from_dict_roundtrip_eq {st : GraphStore} (hwf : WF st) (hc : CoreWF st) :
    from_dict st (to_dict st) = (⟨st.nodes, st.edges, st.node_edges, 0⟩, .ok ()) := by
  have hcanon : (Dict.keys st.nodes).map (fun k => (k, incident k st.edges)) =
      st.node_edges := by
    rw [← hwf.ne_keys]
    exact hwf.ne_canon.symm
  have hends : ∀ p ∈ st.edges, p.2.source_node_id ∈ Dict.keys st.nodes ∧
      p.2.target_node_id ∈ Dict.keys st.nodes := fun p hp =>
    ⟨Dict.contains_iff_mem_keys.mp (hwf.endpoints p hp).1,
     Dict.contains_iff_mem_keys.mp (hwf.endpoints p hp).2⟩
  have hrep := from_dict_edges_replay st.nodes 0 hwf.nodes_nodup st.edges []
    ((Dict.keys st.nodes).map (fun k => (k, incident k ([] : Dict Edge)))) rfl
    hwf.edges_nodup hwf.edges_ok hends
  simp only [from_dict, to_dict]
  rw [from_dict_nodes_roundtrip hwf hc]
  show from_dict_edges
      ⟨st.nodes, [], (Dict.keys st.nodes).map (fun k => (k, incident k ([] : Dict Edge))), 0⟩
      (st.edges.map (fun p => (p.1, Edge.to_data p.2))) = _
  rw [hrep]
  rw [List.nil_append, hcanon]

/-- Claim C4 (amended): on every store reachable by successful non-import
calls that never hand `add_node` a seed-flagged node, importing the store's
own export succeeds and reproduces the node map, the edge map (ids and
evidence included) and the adjacency index exactly, and the reimported
store reports statistics equal to the original's (only the private edge
counter is reset). -/
theorem C4_roundtrip (st : GraphStore) (h : ReachableCore st) :
    (from_dict st (to_dict st)).2 = .ok () ∧
    (from_dict st (to_dict st)).1.nodes = st.nodes ∧
    (from_dict st (to_dict st)).1.edges = st.edges ∧
    (from_dict st (to_dict st)).1.node_edges = st.node_edges ∧
    get_statistics (from_dict st (to_dict st)).1 = get_statistics st := by
  have hwf : WF st := WF_reachableNI (ReachableCore_toNI h)
  have hc : CoreWF st := CoreWF_reachable h
  rw [from_dict_roundtrip_eq hwf hc]
  exact ⟨rfl, rfl, rfl, rfl,
    get_statistics_counter_irrel st.nodes st.edges st.node_edges 0 st.edge_counter⟩

/-- Witness for C4 (amended), at the freshly initialized store. -/
theorem C4_roundtrip_witness :
    (from_dict GraphStore.init (to_dict GraphStore.init)).2 = .ok () ∧
    (from_dict GraphStore.init (to_dict GraphStore.init)).1.nodes = GraphStore.init.nodes ∧
    (from_dict GraphStore.init (to_dict GraphStore.init)).1.edges = GraphStore.init.edges ∧
    (from_dict GraphStore.init (to_dict GraphStore.init)).1.node_edges =
      GraphStore.init.node_edges ∧
    get_statistics (from_dict GraphStore.init (to_dict GraphStore.init)).1 =
      get_statistics GraphStore.init :=
  C4_roundtrip GraphStore.init ReachableCore.init

end Medkg
